import Mathlib

/-!
# Verification of the `pipes` package (`src/pipes.go`)

Shallow embedding of the single-process executor (`Exec`), the pipeline
executor (`ExecPipeline`) and their convenience wrappers (`ExecE`, `ExecO`,
`ExecStdin`, `ExecStdout`, `ExecPipelineE`, `ExecPipelineO`).

The operating system is modelled as an oracle (`OS`) deciding, per stage
index, whether pipe creation, process start and process wait succeed, and
with which error text they fail.  Errors are the strings Go's `fmt.Errorf`
builds.  A run returns the result, the final descriptor states, and a trace
of the OS-visible events (pipe creations, starts, waits, SIGKILL signals and
reaps), so that ordering and cleanup claims can be stated about the trace.
-/

namespace Pipes

/-- A stream value that can occupy a descriptor's `Stdin`/`Stdout`/`Stderr`
field: a caller-supplied reader or writer, `ioutil.Discard`, the write or
read end of the inter-stage pipe created for adjacent pair `i`, or one of a
wrapper's private `bytes.Buffer`s. -/
inductive RW where
  | caller (id : Nat)
  | discard
  | pipeW (i : Nat)
  | pipeR (i : Nat)
  | buffer (id : Nat)
  deriving DecidableEq, Repr

/-- An `exec.Cmd` descriptor: program path, the three stream fields (Go
`nil` is `none`), and the `Process` handle (`some pid` once started). -/
structure Cmd where
  path : String
  stdin : Option RW := none
  stdout : Option RW := none
  stderr : Option RW := none
  process : Option Nat := none
  deriving DecidableEq, Repr

/-- The operating-system oracle: for each stage index, whether the pipe
creation for pair `(i, i+1)`, the `Start` of stage `i`, and the `Wait` of
stage `i` fail, and with which error text. `none` means success. -/
structure OS where
  pipeFail : Nat → Option String
  startFail : Nat → Option String
  waitFail : Nat → Option String

/-- OS-visible events of a run, labelled by stage index: pipe creation for
adjacent pair `i`, successful/failed `cmd.Start()`, successful/failed
`cmd.Wait()` in the wait loop, `Process.Signal(SIGKILL)` and the
`Process.Wait()` reap performed by the deferred cleanup. -/
inductive Event where
  | mkPipe (i : Nat)
  | pipeFailEv (i : Nat)
  | startOK (i : Nat)
  | startFailEv (i : Nat)
  | waitOK (i : Nat)
  | waitFailEv (i : Nat)
  | sigKill (i : Nat)
  | reap (i : Nat)
  deriving DecidableEq, Repr

/-- Result of the pipe-wiring loop (`pipes.go` lines 105-113). -/
structure WireOut where
  err : Option String
  cmds : List Cmd
  tr : List Event
  deriving DecidableEq, Repr

/-- Result of the start loop (`pipes.go` lines 120-132): error, descriptor
states, trace, and the deferred-cleanup registrations in registration
order.  Each registration captures the started descriptor (Go defers
capture the `*exec.Cmd` pointer; the `Process` field is never changed
after a successful `Start`, so the captured value is also the state the
deferred function sees at call exit). -/
structure StartOut where
  err : Option String
  cmds : List Cmd
  tr : List Event
  defs : List (Nat × Cmd)
  deriving DecidableEq, Repr

/-- Result of the wait loop (`pipes.go` lines 135-139). -/
structure WaitOut where
  err : Option String
  tr : List Event
  deriving DecidableEq, Repr

/-- Result of `ExecPipeline`: the returned error (`none` = success), the
final descriptor states, and the event trace of the whole call. -/
structure PipeOut where
  res : Option String
  cmds : List Cmd
  trace : List Event
  deriving DecidableEq, Repr

/-- Result of `Exec` on its single descriptor. -/
structure ExecOut where
  res : Option String
  cmd : Cmd
  trace : List Event
  deriving DecidableEq, Repr

/-- Set the `stdin` field of the first descriptor of a list, if any. -/
def setHeadStdin (v : Option RW) : List Cmd → List Cmd
  | [] => []
  | c :: rest => { c with stdin := v } :: rest

/-- The pipe-wiring loop, `pipes.go` lines 105-113: for each adjacent pair
`(i, i+1)`, `cmds[i+1].Stdin, err = cmds[i].StdoutPipe()` — on success the
pipe's write end becomes stage `i`'s stdout and its read end stage
`i+1`'s stdin, and stage `i`'s stderr is set to the shared destination;
on failure the loop returns `"<path_i> <os error>"` at once (stage `i+1`'s
stdin having been clobbered with the returned nil reader).  The last
stage is not touched here. -/
def wirePipes (os : OS) (sv : RW) (i : Nat) : List Cmd → WireOut
  | [] => ⟨none, [], []⟩
  | [c] => ⟨none, [c], []⟩
  | c0 :: c1 :: rest =>
    match os.pipeFail i with
    | some e =>
      ⟨some (c0.path ++ " " ++ e), c0 :: setHeadStdin none (c1 :: rest), [Event.pipeFailEv i]⟩
    | none =>
      let w := wirePipes os sv (i + 1) (c1 :: rest)
      ⟨w.err,
       { c0 with stdout := some (RW.pipeW i), stderr := some sv } ::
         setHeadStdin (some (RW.pipeR i)) w.cmds,
       Event.mkPipe i :: w.tr⟩

/-- `pipes.go` line 116: attach the external output and the shared error
destination to the last descriptor. -/
def setLast (ov sv : RW) : List Cmd → List Cmd
  | [] => []
  | [c] => [{ c with stdout := some ov, stderr := some sv }]
  | c :: rest => c :: setLast ov sv rest

/-- The start loop, `pipes.go` lines 120-132: start each descriptor in
order; on a failure return `"<path> <os error>"` at once; each successful
start sets the `Process` handle and registers a deferred cleanup. -/
def startLoop (os : OS) (i : Nat) : List Cmd → StartOut
  | [] => ⟨none, [], [], []⟩
  | c :: rest =>
    match os.startFail i with
    | some e => ⟨some (c.path ++ " " ++ e), c :: rest, [Event.startFailEv i], []⟩
    | none =>
      let c1 := { c with process := some i }
      let s := startLoop os (i + 1) rest
      ⟨s.err, c1 :: s.cmds, Event.startOK i :: s.tr, (i, c1) :: s.defs⟩

/-- The wait loop, `pipes.go` lines 135-139: wait for each descriptor in
order; the first wait failure returns `"<path> <os error>"` at once. -/
def waitLoop (os : OS) (i : Nat) : List Cmd → WaitOut
  | [] => ⟨none, []⟩
  | c :: rest =>
    match os.waitFail i with
    | some e => ⟨some (c.path ++ " " ++ e), [Event.waitFailEv i]⟩
    | none =>
      let w := waitLoop os (i + 1) rest
      ⟨w.err, Event.waitOK i :: w.tr⟩

/-- The deferred cleanups, `pipes.go` lines 126-131, run at call exit in
LIFO order (callers pass the registrations reversed): each one checks the
shared `err` variable at exit time and the captured descriptor's
`Process` handle, and if the call is failing and the handle is non-nil it
sends SIGKILL and reaps. -/
def deferEvents (failed : Bool) : List (Nat × Cmd) → List Event
  | [] => []
  | (i, c) :: rest =>
    (match failed, c.process with
     | true, some _ => [Event.sigKill i, Event.reap i]
     | _, _ => []) ++ deferEvents failed rest

/-- `pipes.go` lines 95-97: attach the optional external input to a
descriptor's stdin; a nil input leaves the field untouched. -/
def attachStdin (stdin? : Option RW) (c : Cmd) : Cmd :=
  match stdin? with
  | some s => { c with stdin := some s }
  | none => c

/-- `pipes.go` lines 95-116: the wiring phase of `ExecPipeline` on a
non-empty descriptor list — attach the optional external stdin to stage 0,
substitute `ioutil.Discard` for omitted stdout/stderr, run the pipe loop,
and (when it succeeded) attach output and error to the last stage.  This
is exactly the state from which the start loop runs. -/
def pipelineWired (os : OS) (stdin? stdout? stderr? : Option RW) (c0 : Cmd)
    (rest : List Cmd) : WireOut :=
  let w := wirePipes os (stderr?.getD RW.discard) 0 (attachStdin stdin? c0 :: rest)
  match w.err with
  | some _ => w
  | none =>
    { w with cmds := setLast (stdout?.getD RW.discard) (stderr?.getD RW.discard) w.cmds }

/-- `ExecPipeline`, `pipes.go` lines 86-143: reject an empty list, wire the
stages, start them in order, wait for them in order, and run the deferred
cleanups (in LIFO order) at every exit path. -/
def ExecPipeline (os : OS) (cmds : List Cmd) (stdin? stdout? stderr? : Option RW) : PipeOut :=
  match cmds with
  | [] => ⟨some "No commands provided to ExecPipeline", [], []⟩
  | c0 :: rest =>
    let w := pipelineWired os stdin? stdout? stderr? c0 rest
    match w.err with
    | some e => ⟨some e, w.cmds, w.tr⟩
    | none =>
      let s := startLoop os 0 w.cmds
      match s.err with
      | some e => ⟨some e, s.cmds, w.tr ++ (s.tr ++ deferEvents true s.defs.reverse)⟩
      | none =>
        let wt := waitLoop os 0 s.cmds
        ⟨wt.err, s.cmds,
         w.tr ++ (s.tr ++ (wt.tr ++ deferEvents wt.err.isSome s.defs.reverse))⟩

/-- `Exec`, `pipes.go` lines 16-39: attach the optional stdin, substitute
`ioutil.Discard` for omitted stdout/stderr, attach both, start, then
wait; each failure returns `"<path> <os error>"`. -/
def Exec (os : OS) (cmd : Cmd) (stdin? stdout? stderr? : Option RW) : ExecOut :=
  let c0 := match stdin? with
    | some s => { cmd with stdin := some s }
    | none => cmd
  let c1 := { c0 with stdout := some (stdout?.getD RW.discard),
                      stderr := some (stderr?.getD RW.discard) }
  match os.startFail 0 with
  | some e => ⟨some (c1.path ++ " " ++ e), c1, [Event.startFailEv 0]⟩
  | none =>
    let c2 := { c1 with process := some 0 }
    match os.waitFail 0 with
    | some e => ⟨some (c2.path ++ " " ++ e), c2, [Event.startOK 0, Event.waitFailEv 0]⟩
    | none => ⟨none, c2, [Event.startOK 0, Event.waitOK 0]⟩

/-- `ExecE`, `pipes.go` lines 45-52: run `Exec` with a private buffer as the
error destination; `errText` is the text the process wrote into that
buffer by return time.  A non-nil underlying error becomes
`"<underlying> - <captured>"`. -/
def ExecE (os : OS) (cmd : Cmd) (stdin? stdout? : Option RW) (errText : String) :
    Option String × ExecOut :=
  let r := Exec os cmd stdin? stdout? (some (RW.buffer 0))
  (r.res.map (fun m => m ++ " - " ++ errText), r)

/-- `ExecO`, `pipes.go` lines 58-65: run `ExecE` with a private buffer as
the output destination (`outText` is the buffer's content by return
time); on failure return nil bytes with the error, on success the
buffer's bytes. -/
def ExecO (os : OS) (cmd : Cmd) (stdin? : Option RW) (outText errText : String) :
    Option String × Option String :=
  match (ExecE os cmd stdin? (some (RW.buffer 1)) errText).1 with
  | some e => (none, some e)
  | none => (some outText, none)

/-- `ExecStdin`, `pipes.go` lines 70-72: `ExecE` with a required stdin and
discarded stdout. -/
def ExecStdin (os : OS) (cmd : Cmd) (stdin : RW) (errText : String) : Option String :=
  (ExecE os cmd (some stdin) none errText).1

/-- `ExecStdout`, `pipes.go` lines 77-79: `ExecE` with no stdin and a
required stdout. -/
def ExecStdout (os : OS) (cmd : Cmd) (stdout : RW) (errText : String) : Option String :=
  (ExecE os cmd none (some stdout) errText).1

/-- `ExecPipelineE`, `pipes.go` lines 150-157: run `ExecPipeline` with a
private buffer as the error destination; a non-nil underlying error
becomes `"<underlying> - <captured>"`. -/
def ExecPipelineE (os : OS) (cmds : List Cmd) (stdin? stdout? : Option RW)
    (errText : String) : Option String × PipeOut :=
  let r := ExecPipeline os cmds stdin? stdout? (some (RW.buffer 0))
  (r.res.map (fun m => m ++ " - " ++ errText), r)

/-- `ExecPipelineO`, `pipes.go` lines 164-168: run `ExecPipelineE` with a
private buffer as the output destination and return the buffer's bytes
(`outText`) together with the (possibly nil) error. -/
def ExecPipelineO (os : OS) (cmds : List Cmd) (stdin? : Option RW)
    (outText errText : String) : Option String × Option String :=
  (some outText, (ExecPipelineE os cmds stdin? (some (RW.buffer 1)) errText).1)

/-- Index list `[i, i+1, ..., i+n-1]`, used to describe loop traces. -/
def idxs (i : Nat) : Nat → List Nat
  | 0 => []
  | n + 1 => i :: idxs (i + 1) n

/-- The descriptor states after all of a list started: stage `i + j` gets
process handle `i + j`. -/
def startedCmds (i : Nat) : List Cmd → List Cmd
  | [] => []
  | c :: rest => { c with process := some i } :: startedCmds (i + 1) rest

/-- The cleanup registrations after all of a list started. -/
def startedDefs (i : Nat) : List Cmd → List (Nat × Cmd)
  | [] => []
  | c :: rest => (i, { c with process := some i }) :: startedDefs (i + 1) rest

/-- The kill-and-reap event pairs for the given stage indices. -/
def killEvents : List Nat → List Event
  | [] => []
  | i :: rest => Event.sigKill i :: Event.reap i :: killEvents rest

/-- The expected descriptor states after a fully successful pipe-wiring
loop: stage `i + j` (except the last) gets the write end of pipe `i + j`
as stdout and the shared error destination, and stage `i + j + 1` gets
the read end of pipe `i + j` as stdin. -/
def wireSpecCmds (sv : RW) (i : Nat) : List Cmd → List Cmd
  | [] => []
  | [c] => [c]
  | c0 :: c1 :: rest =>
    { c0 with stdout := some (RW.pipeW i), stderr := some sv } ::
      setHeadStdin (some (RW.pipeR i)) (wireSpecCmds sv (i + 1) (c1 :: rest))

/-- Classifier for the start/wait events of a trace (used to compare the
single-process and pipeline execution sequences). -/
def isStartWait : Event → Bool
  | Event.startOK _ => true
  | Event.startFailEv _ => true
  | Event.waitOK _ => true
  | Event.waitFailEv _ => true
  | _ => false

/-! ## Concrete fixtures for witnesses and counterexamples -/

/-- A two-stage fixture: first descriptor. -/
def cmdA : Cmd := { path := "a" }

/-- A two-stage fixture: second descriptor. -/
def cmdB : Cmd := { path := "b" }

/-- An OS oracle on which every pipe creation, start and wait succeeds. -/
def osOK : OS := ⟨fun _ => none, fun _ => none, fun _ => none⟩

/-- An OS oracle on which stage 1's wait fails (non-zero exit status). -/
def osWait1 : OS :=
  ⟨fun _ => none, fun _ => none, fun k => if k = 1 then some "exit status 1" else none⟩

/-- An OS oracle on which stage 0's wait fails (non-zero exit status). -/
def osWait0 : OS :=
  ⟨fun _ => none, fun _ => none, fun k => if k = 0 then some "exit status 1" else none⟩

/-- An OS oracle on which stage 1's start fails. -/
def osStart1 : OS :=
  ⟨fun _ => none, fun k => if k = 1 then some "no such file or directory" else none,
   fun _ => none⟩

/-- An OS oracle on which the pipe creation for pair (0, 1) fails. -/
def osPipe0 : OS :=
  ⟨fun k => if k = 0 then some "too many open files" else none, fun _ => none,
   fun _ => none⟩

/-- An OS oracle on which stage 0's start fails. -/
def osStart0 : OS :=
  ⟨fun _ => none, fun k => if k = 0 then some "permission denied" else none,
   fun _ => none⟩

/-! ## Helper lemmas: index lists and event shapes -/

theorem mem_idxs {j i n : Nat} : j ∈ idxs i n ↔ i ≤ j ∧ j < i + n := by
  induction n generalizing i with
  | zero => simp [idxs]
  | succ n ih => simp [idxs, ih]; omega

theorem wire_tr_shape (os : OS) (sv : RW) (i : Nat) (l : List Cmd) :
    ∀ e ∈ (wirePipes os sv i l).tr, ∃ j, e = Event.mkPipe j ∨ e = Event.pipeFailEv j := by
  induction l generalizing i with
  | nil => simp [wirePipes]
  | cons c rest ih =>
    cases rest with
    | nil => simp [wirePipes]
    | cons c1 rest1 =>
      cases h : os.pipeFail i with
      | some e => simp [wirePipes, h]
      | none =>
        intro e he
        simp only [wirePipes, h, List.mem_cons] at he
        rcases he with rfl | he
        · exact ⟨i, Or.inl rfl⟩
        · exact ih (i + 1) e he

theorem start_tr_shape (os : OS) (i : Nat) (l : List Cmd) :
    ∀ e ∈ (startLoop os i l).tr, ∃ j, e = Event.startOK j ∨ e = Event.startFailEv j := by
  induction l generalizing i with
  | nil => simp [startLoop]
  | cons c rest ih =>
    cases h : os.startFail i with
    | some e => simp [startLoop, h]
    | none =>
      intro e he
      simp only [startLoop, h, List.mem_cons] at he
      rcases he with rfl | he
      · exact ⟨i, Or.inl rfl⟩
      · exact ih (i + 1) e he

theorem wait_tr_shape (os : OS) (i : Nat) (l : List Cmd) :
    ∀ e ∈ (waitLoop os i l).tr, ∃ j, e = Event.waitOK j ∨ e = Event.waitFailEv j := by
  induction l generalizing i with
  | nil => simp [waitLoop]
  | cons c rest ih =>
    cases h : os.waitFail i with
    | some e => simp [waitLoop, h]
    | none =>
      intro e he
      simp only [waitLoop, h, List.mem_cons] at he
      rcases he with rfl | he
      · exact ⟨i, Or.inl rfl⟩
      · exact ih (i + 1) e he

theorem deferEvents_shape (b : Bool) (ds : List (Nat × Cmd)) :
    ∀ e ∈ deferEvents b ds, ∃ j, e = Event.sigKill j ∨ e = Event.reap j := by
  induction ds with
  | nil => simp [deferEvents]
  | cons p rest ih =>
    obtain ⟨i, c⟩ := p
    intro e he
    simp only [deferEvents, List.mem_append] at he
    rcases he with he | he
    · cases b <;> cases hc : c.process <;> simp [hc] at he
      rcases he with rfl | rfl <;> exact ⟨i, by simp⟩
    · exact ih e he

theorem deferEvents_false (ds : List (Nat × Cmd)) : deferEvents false ds = [] := by
  induction ds with
  | nil => rfl
  | cons p rest ih => obtain ⟨i, c⟩ := p; simpa [deferEvents] using ih

theorem killEvents_shape (ds : List Nat) :
    ∀ e ∈ killEvents ds, ∃ j, e = Event.sigKill j ∨ e = Event.reap j := by
  induction ds with
  | nil => simp [killEvents]
  | cons i rest ih =>
    intro e he
    simp only [killEvents, List.mem_cons] at he
    rcases he with rfl | rfl | he
    · exact ⟨i, by simp⟩
    · exact ⟨i, by simp⟩
    · exact ih e he

theorem mem_killEvents_sigKill {j : Nat} {ds : List Nat} :
    Event.sigKill j ∈ killEvents ds ↔ j ∈ ds := by
  induction ds with
  | nil => simp [killEvents]
  | cons i rest ih => simp [killEvents, ih]

theorem mem_killEvents_reap {j : Nat} {ds : List Nat} :
    Event.reap j ∈ killEvents ds ↔ j ∈ ds := by
  induction ds with
  | nil => simp [killEvents]
  | cons i rest ih => simp [killEvents, ih]

/-! ## Helper lemmas: the start loop and its cleanup registrations -/

theorem startLoop_mem_defs (os : OS) (i : Nat) (l : List Cmd) (j : Nat) :
    Event.startOK j ∈ (startLoop os i l).tr ↔
      j ∈ (startLoop os i l).defs.map Prod.fst := by
  induction l generalizing i with
  | nil => simp [startLoop]
  | cons c rest ih =>
    cases h : os.startFail i with
    | some e => simp [startLoop, h]
    | none => simp [startLoop, h, ih (i + 1)]

theorem startLoop_defs_process (os : OS) (i : Nat) (l : List Cmd) :
    ∀ p ∈ (startLoop os i l).defs, p.2.process = some p.1 := by
  induction l generalizing i with
  | nil => simp [startLoop]
  | cons c rest ih =>
    cases h : os.startFail i with
    | some e => simp [startLoop, h]
    | none =>
      intro p hp
      simp only [startLoop, h, List.mem_cons] at hp
      rcases hp with rfl | hp
      · rfl
      · exact ih (i + 1) p hp

theorem startLoop_defs_lt (os : OS) (i : Nat) (l : List Cmd) :
    ∀ p ∈ (startLoop os i l).defs, i ≤ p.1 ∧ p.1 < i + l.length := by
  induction l generalizing i with
  | nil => simp [startLoop]
  | cons c rest ih =>
    cases h : os.startFail i with
    | some e => simp [startLoop, h]
    | none =>
      intro p hp
      simp only [startLoop, h, List.mem_cons] at hp
      rcases hp with rfl | hp
      · simp
      · have := ih (i + 1) p hp
        simp only [List.length_cons]
        omega

theorem startLoop_cmds_length (os : OS) (i : Nat) (l : List Cmd) :
    (startLoop os i l).cmds.length = l.length := by
  induction l generalizing i with
  | nil => simp [startLoop]
  | cons c rest ih =>
    cases h : os.startFail i with
    | some e => simp [startLoop, h]
    | none => simp [startLoop, h, ih (i + 1)]

theorem deferEvents_true_eq (ds : List (Nat × Cmd))
    (h : ∀ p ∈ ds, p.2.process ≠ none) :
    deferEvents true ds = killEvents (ds.map Prod.fst) := by
  induction ds with
  | nil => rfl
  | cons p rest ih =>
    obtain ⟨i, c⟩ := p
    have hc : c.process ≠ none := h (i, c) (by simp)
    cases hp : c.process with
    | none => exact absurd hp hc
    | some k =>
      simp only [deferEvents, hp, List.map_cons, killEvents]
      rw [ih (fun q hq => h q (by simp [hq]))]
      rfl

theorem startedDefs_map_fst (i : Nat) (l : List Cmd) :
    (startedDefs i l).map Prod.fst = idxs i l.length := by
  induction l generalizing i with
  | nil => rfl
  | cons c rest ih => simp [startedDefs, idxs, ih (i + 1)]

theorem startLoop_err_none (os : OS) (i : Nat) (l : List Cmd)
    (h : (startLoop os i l).err = none) :
    startLoop os i l =
      ⟨none, startedCmds i l, (idxs i l.length).map Event.startOK, startedDefs i l⟩ := by
  induction l generalizing i with
  | nil => rfl
  | cons c rest ih =>
    cases hf : os.startFail i with
    | some e => simp [startLoop, hf] at h
    | none =>
      have h1 : (startLoop os (i + 1) rest).err = none := by
        simp only [startLoop, hf] at h; exact h
      simp [startLoop, hf, ih (i + 1) h1, startedCmds, startedDefs, idxs]

theorem waitLoop_err_none (os : OS) (i : Nat) (l : List Cmd)
    (h : (waitLoop os i l).err = none) :
    waitLoop os i l = ⟨none, (idxs i l.length).map Event.waitOK⟩ := by
  induction l generalizing i with
  | nil => rfl
  | cons c rest ih =>
    cases hf : os.waitFail i with
    | some e => simp [waitLoop, hf] at h
    | none =>
      have h1 : (waitLoop os (i + 1) rest).err = none := by
        simp only [waitLoop, hf] at h; exact h
      simp [waitLoop, hf, ih (i + 1) h1, idxs]

theorem startedCmds_length (i : Nat) (l : List Cmd) :
    (startedCmds i l).length = l.length := by
  induction l generalizing i with
  | nil => rfl
  | cons c rest ih => simp [startedCmds, ih (i + 1)]

/-! ## Helper lemmas: the wiring phase and the branches of `ExecPipeline` -/

theorem pipelineWired_err (os : OS) (a b c : Option RW) (c0 : Cmd) (rest : List Cmd) :
    (pipelineWired os a b c c0 rest).err =
      (wirePipes os (c.getD RW.discard) 0 (attachStdin a c0 :: rest)).err := by
  unfold pipelineWired
  cases hw : (wirePipes os (c.getD RW.discard) 0 (attachStdin a c0 :: rest)).err <;>
    simp [hw]

theorem pipelineWired_tr (os : OS) (a b c : Option RW) (c0 : Cmd) (rest : List Cmd) :
    (pipelineWired os a b c c0 rest).tr =
      (wirePipes os (c.getD RW.discard) 0 (attachStdin a c0 :: rest)).tr := by
  unfold pipelineWired
  cases hw : (wirePipes os (c.getD RW.discard) 0 (attachStdin a c0 :: rest)).err <;>
    simp [hw]

theorem pipelineWired_cmds_ok (os : OS) (a b c : Option RW) (c0 : Cmd) (rest : List Cmd)
    (h : (wirePipes os (c.getD RW.discard) 0 (attachStdin a c0 :: rest)).err = none) :
    (pipelineWired os a b c c0 rest).cmds =
      setLast (b.getD RW.discard) (c.getD RW.discard)
        (wirePipes os (c.getD RW.discard) 0 (attachStdin a c0 :: rest)).cmds := by
  unfold pipelineWired
  simp [h]

theorem pipelineWired_tr_shape (os : OS) (a b c : Option RW) (c0 : Cmd) (rest : List Cmd) :
    ∀ e ∈ (pipelineWired os a b c c0 rest).tr,
      ∃ j, e = Event.mkPipe j ∨ e = Event.pipeFailEv j := by
  rw [pipelineWired_tr]
  exact wire_tr_shape _ _ _ _

theorem ExecPipeline_nil (os : OS) (a b c : Option RW) :
    ExecPipeline os [] a b c = ⟨some "No commands provided to ExecPipeline", [], []⟩ := rfl

theorem ExecPipeline_wire_fail (os : OS) (c0 : Cmd) (rest : List Cmd) (a b c : Option RW)
    (e : String) (h : (pipelineWired os a b c c0 rest).err = some e) :
    ExecPipeline os (c0 :: rest) a b c =
      ⟨some e, (pipelineWired os a b c c0 rest).cmds, (pipelineWired os a b c c0 rest).tr⟩ := by
  simp only [ExecPipeline, h]

theorem ExecPipeline_start_fail (os : OS) (c0 : Cmd) (rest : List Cmd) (a b c : Option RW)
    (e : String) (hw : (pipelineWired os a b c c0 rest).err = none)
    (hs : (startLoop os 0 (pipelineWired os a b c c0 rest).cmds).err = some e) :
    ExecPipeline os (c0 :: rest) a b c =
      ⟨some e, (startLoop os 0 (pipelineWired os a b c c0 rest).cmds).cmds,
       (pipelineWired os a b c c0 rest).tr ++
         ((startLoop os 0 (pipelineWired os a b c c0 rest).cmds).tr ++
           deferEvents true
             (startLoop os 0 (pipelineWired os a b c c0 rest).cmds).defs.reverse)⟩ := by
  simp only [ExecPipeline, hw, hs]

theorem ExecPipeline_started (os : OS) (c0 : Cmd) (rest : List Cmd) (a b c : Option RW)
    (hw : (pipelineWired os a b c c0 rest).err = none)
    (hs : (startLoop os 0 (pipelineWired os a b c c0 rest).cmds).err = none) :
    ExecPipeline os (c0 :: rest) a b c =
      ⟨(waitLoop os 0 (startLoop os 0 (pipelineWired os a b c c0 rest).cmds).cmds).err,
       (startLoop os 0 (pipelineWired os a b c c0 rest).cmds).cmds,
       (pipelineWired os a b c c0 rest).tr ++
         ((startLoop os 0 (pipelineWired os a b c c0 rest).cmds).tr ++
           ((waitLoop os 0 (startLoop os 0 (pipelineWired os a b c c0 rest).cmds).cmds).tr ++
             deferEvents
               (waitLoop os 0 (startLoop os 0 (pipelineWired os a b c c0 rest).cmds).cmds).err.isSome
               (startLoop os 0 (pipelineWired os a b c c0 rest).cmds).defs.reverse))⟩ := by
  simp only [ExecPipeline, hw, hs]

theorem pw_no_startOK (os : OS) (a b c : Option RW) (c0 : Cmd) (rest : List Cmd) (i : Nat) :
    Event.startOK i ∉ (pipelineWired os a b c c0 rest).tr := by
  intro h
  rcases pipelineWired_tr_shape os a b c c0 rest _ h with ⟨j, hj | hj⟩ <;> simp at hj

theorem pw_no_sigKill (os : OS) (a b c : Option RW) (c0 : Cmd) (rest : List Cmd) (i : Nat) :
    Event.sigKill i ∉ (pipelineWired os a b c c0 rest).tr := by
  intro h
  rcases pipelineWired_tr_shape os a b c c0 rest _ h with ⟨j, hj | hj⟩ <;> simp at hj

theorem sl_no_sigKill (os : OS) (k : Nat) (l : List Cmd) (i : Nat) :
    Event.sigKill i ∉ (startLoop os k l).tr := by
  intro h
  rcases start_tr_shape os k l _ h with ⟨j, hj | hj⟩ <;> simp at hj

theorem sl_no_reap (os : OS) (k : Nat) (l : List Cmd) (i : Nat) :
    Event.reap i ∉ (startLoop os k l).tr := by
  intro h
  rcases start_tr_shape os k l _ h with ⟨j, hj | hj⟩ <;> simp at hj

theorem wl_no_startOK (os : OS) (k : Nat) (l : List Cmd) (i : Nat) :
    Event.startOK i ∉ (waitLoop os k l).tr := by
  intro h
  rcases wait_tr_shape os k l _ h with ⟨j, hj | hj⟩ <;> simp at hj

theorem wl_no_sigKill (os : OS) (k : Nat) (l : List Cmd) (i : Nat) :
    Event.sigKill i ∉ (waitLoop os k l).tr := by
  intro h
  rcases wait_tr_shape os k l _ h with ⟨j, hj | hj⟩ <;> simp at hj

theorem de_no_startOK (b : Bool) (ds : List (Nat × Cmd)) (i : Nat) :
    Event.startOK i ∉ deferEvents b ds := by
  intro h
  rcases deferEvents_shape b ds _ h with ⟨j, hj | hj⟩ <;> simp at hj

/-- On a failing run the deferred cleanups turn into exactly the
kill-and-reap events of the registered stages, in LIFO order. -/
theorem deferEvents_of_startLoop (os : OS) (k : Nat) (l : List Cmd) :
    deferEvents true (startLoop os k l).defs.reverse =
      killEvents ((startLoop os k l).defs.reverse.map Prod.fst) := by
  apply deferEvents_true_eq
  intro p hp
  have := startLoop_defs_process os k l p (List.mem_reverse.mp hp)
  simp [this]

/-- A stage that was started is registered for cleanup, so on a failing
run its kill signal is among the deferred-cleanup events. -/
theorem started_mem_kill (os : OS) (k : Nat) (l : List Cmd) (i : Nat)
    (h : Event.startOK i ∈ (startLoop os k l).tr) :
    Event.sigKill i ∈ deferEvents true (startLoop os k l).defs.reverse ∧
      Event.reap i ∈ deferEvents true (startLoop os k l).defs.reverse := by
  rw [deferEvents_of_startLoop]
  have hd : i ∈ (startLoop os k l).defs.map Prod.fst :=
    (startLoop_mem_defs os k l i).mp h
  have hd2 : i ∈ (startLoop os k l).defs.reverse.map Prod.fst := by
    rw [List.map_reverse, List.mem_reverse]
    exact hd
  exact ⟨mem_killEvents_sigKill.mpr hd2, mem_killEvents_reap.mpr hd2⟩

theorem startLoop_tr_ok (os : OS) (k : Nat) (l : List Cmd)
    (h : (startLoop os k l).err = none) :
    (startLoop os k l).tr = (idxs k l.length).map Event.startOK := by
  rw [startLoop_err_none os k l h]

theorem startLoop_cmds_ok (os : OS) (k : Nat) (l : List Cmd)
    (h : (startLoop os k l).err = none) :
    (startLoop os k l).cmds = startedCmds k l := by
  rw [startLoop_err_none os k l h]

theorem startLoop_defs_ok (os : OS) (k : Nat) (l : List Cmd)
    (h : (startLoop os k l).err = none) :
    (startLoop os k l).defs = startedDefs k l := by
  rw [startLoop_err_none os k l h]

theorem waitLoop_tr_ok (os : OS) (k : Nat) (l : List Cmd)
    (h : (waitLoop os k l).err = none) :
    (waitLoop os k l).tr = (idxs k l.length).map Event.waitOK := by
  rw [waitLoop_err_none os k l h]

/-- Cleanup-on-failure for the pipeline executor: on any failing run,
every started stage receives SIGKILL and is reaped by the deferred
cleanups before the call returns. -/
theorem pipeline_fail_kills (os : OS) (cmds : List Cmd) (a b c : Option RW)
    (hf : (ExecPipeline os cmds a b c).res ≠ none) (i : Nat)
    (hi : Event.startOK i ∈ (ExecPipeline os cmds a b c).trace) :
    Event.sigKill i ∈ (ExecPipeline os cmds a b c).trace ∧
      Event.reap i ∈ (ExecPipeline os cmds a b c).trace := by
  cases cmds with
  | nil => rw [ExecPipeline_nil] at hi; simp at hi
  | cons c0 rest =>
    cases hw : (pipelineWired os a b c c0 rest).err with
    | some e =>
      rw [ExecPipeline_wire_fail os c0 rest a b c e hw] at hi
      exact absurd hi (pw_no_startOK os a b c c0 rest i)
    | none =>
      cases hs : (startLoop os 0 (pipelineWired os a b c c0 rest).cmds).err with
      | some e =>
        rw [ExecPipeline_start_fail os c0 rest a b c e hw hs] at hi ⊢
        simp only [List.mem_append] at hi ⊢
        rcases hi with hi | hi | hi
        · exact absurd hi (pw_no_startOK os a b c c0 rest i)
        · have := started_mem_kill os 0 (pipelineWired os a b c c0 rest).cmds i hi
          exact ⟨Or.inr (Or.inr this.1), Or.inr (Or.inr this.2)⟩
        · exact absurd hi (de_no_startOK _ _ i)
      | none =>
        rw [ExecPipeline_started os c0 rest a b c hw hs] at hi hf ⊢
        simp only at hf
        have hsome :
            (waitLoop os 0
              (startLoop os 0 (pipelineWired os a b c c0 rest).cmds).cmds).err.isSome = true := by
          cases hwt : (waitLoop os 0
              (startLoop os 0 (pipelineWired os a b c c0 rest).cmds).cmds).err with
          | none => exact absurd hwt hf
          | some e => simp [hwt]
        rw [hsome] at hi ⊢
        simp only [List.mem_append] at hi ⊢
        rcases hi with hi | hi | hi | hi
        · exact absurd hi (pw_no_startOK os a b c c0 rest i)
        · have := started_mem_kill os 0 (pipelineWired os a b c c0 rest).cmds i hi
          exact ⟨Or.inr (Or.inr (Or.inr this.1)), Or.inr (Or.inr (Or.inr this.2))⟩
        · exact absurd hi (wl_no_startOK os 0 _ i)
        · exact absurd hi (de_no_startOK _ _ i)

/-- Every started stage of any pipeline run is either waited on by the
wait loop or reaped by the deferred cleanup: no handle outlives the call. -/
theorem pipeline_started_reaped (os : OS) (cmds : List Cmd) (a b c : Option RW) (i : Nat)
    (hi : Event.startOK i ∈ (ExecPipeline os cmds a b c).trace) :
    Event.waitOK i ∈ (ExecPipeline os cmds a b c).trace ∨
      Event.reap i ∈ (ExecPipeline os cmds a b c).trace := by
  cases cmds with
  | nil => rw [ExecPipeline_nil] at hi; simp at hi
  | cons c0 rest =>
    cases hw : (pipelineWired os a b c c0 rest).err with
    | some e =>
      rw [ExecPipeline_wire_fail os c0 rest a b c e hw] at hi
      exact absurd hi (pw_no_startOK os a b c c0 rest i)
    | none =>
      cases hs : (startLoop os 0 (pipelineWired os a b c c0 rest).cmds).err with
      | some e =>
        rw [ExecPipeline_start_fail os c0 rest a b c e hw hs] at hi ⊢
        simp only [List.mem_append] at hi ⊢
        rcases hi with hi | hi | hi
        · exact absurd hi (pw_no_startOK os a b c c0 rest i)
        · have := started_mem_kill os 0 (pipelineWired os a b c c0 rest).cmds i hi
          exact Or.inr (Or.inr (Or.inr this.2))
        · exact absurd hi (de_no_startOK _ _ i)
      | none =>
        rw [ExecPipeline_started os c0 rest a b c hw hs] at hi ⊢
        cases hwt : (waitLoop os 0
            (startLoop os 0 (pipelineWired os a b c c0 rest).cmds).cmds).err with
        | some e =>
          simp only [Option.isSome_some] at hi ⊢
          simp only [List.mem_append] at hi ⊢
          rcases hi with hi | hi | hi | hi
          · exact absurd hi (pw_no_startOK os a b c c0 rest i)
          · have := started_mem_kill os 0 (pipelineWired os a b c c0 rest).cmds i hi
            exact Or.inr (Or.inr (Or.inr (Or.inr this.2)))
          · exact absurd hi (wl_no_startOK os 0 _ i)
          · exact absurd hi (de_no_startOK _ _ i)
        | none =>
          have htr := startLoop_tr_ok os 0 (pipelineWired os a b c c0 rest).cmds hs
          have hcm := startLoop_cmds_ok os 0 (pipelineWired os a b c c0 rest).cmds hs
          have hwtr := waitLoop_tr_ok os 0
            (startLoop os 0 (pipelineWired os a b c c0 rest).cmds).cmds hwt
          rw [hwt] at hi
          simp only [Option.isSome_none, deferEvents_false, List.append_nil] at hi ⊢
          rw [htr] at hi
          rw [hwtr, hcm, startedCmds_length]
          simp only [List.mem_append] at hi ⊢
          rcases hi with hi | hi | hi
          · exact absurd hi (pw_no_startOK os a b c c0 rest i)
          · left
            right
            right
            simp only [List.mem_map] at hi ⊢
            obtain ⟨j, hj, hje⟩ := hi
            have hji : j = i := by injection hje
            subst hji
            exact ⟨j, hj, rfl⟩
          · exact absurd hi (wl_no_startOK os 0 _ i)

/-- On a fully successful run the deferred cleanups do nothing: no stage
is ever sent a kill signal. -/
theorem pipeline_ok_no_kill (os : OS) (cmds : List Cmd) (a b c : Option RW)
    (hok : (ExecPipeline os cmds a b c).res = none) (i : Nat) :
    Event.sigKill i ∉ (ExecPipeline os cmds a b c).trace := by
  cases cmds with
  | nil => rw [ExecPipeline_nil] at hok; simp at hok
  | cons c0 rest =>
    cases hw : (pipelineWired os a b c c0 rest).err with
    | some e =>
      rw [ExecPipeline_wire_fail os c0 rest a b c e hw] at hok
      simp at hok
    | none =>
      cases hs : (startLoop os 0 (pipelineWired os a b c c0 rest).cmds).err with
      | some e =>
        rw [ExecPipeline_start_fail os c0 rest a b c e hw hs] at hok
        simp at hok
      | none =>
        rw [ExecPipeline_started os c0 rest a b c hw hs] at hok ⊢
        simp only at hok
        rw [hok]
        simp only [Option.isSome_none, deferEvents_false, List.append_nil]
        intro hmem
        simp only [List.mem_append] at hmem
        rcases hmem with h | h | h
        · exact absurd h (pw_no_sigKill os a b c c0 rest i)
        · exact absurd h (sl_no_sigKill os 0 _ i)
        · exact absurd h (wl_no_sigKill os 0 _ i)

/-! ## Closed forms for failing loops and successful wiring -/

theorem wirePipes_ok (os : OS) (sv : RW) (i : Nat) (l : List Cmd)
    (h : ∀ j, j + 1 < l.length → os.pipeFail (i + j) = none) :
    wirePipes os sv i l =
      ⟨none, wireSpecCmds sv i l, (idxs i (l.length - 1)).map Event.mkPipe⟩ := by
  induction l generalizing i with
  | nil => rfl
  | cons c rest ih =>
    cases rest with
    | nil => rfl
    | cons c1 rest1 =>
      have h0 : os.pipeFail i = none := by
        have := h 0 (by simp)
        simpa using this
      have h1 : ∀ j, j + 1 < (c1 :: rest1).length → os.pipeFail (i + 1 + j) = none := by
        intro j hj
        rw [show i + 1 + j = i + (j + 1) by omega]
        exact h (j + 1) (by simp at hj ⊢; omega)
      simp only [wirePipes, h0, ih (i + 1) h1]
      simp [wireSpecCmds, idxs, List.length_cons]

theorem wirePipes_fail (os : OS) (sv : RW) (i k : Nat) (l : List Cmd) (e : String)
    (hk : k + 1 < l.length) (hf : os.pipeFail (i + k) = some e)
    (hpre : ∀ j, j < k → os.pipeFail (i + j) = none) :
    (wirePipes os sv i l).err =
      some ((l.get ⟨k, by omega⟩).path ++ " " ++ e) := by
  induction l generalizing i k with
  | nil => simp at hk
  | cons c rest ih =>
    cases rest with
    | nil => simp at hk
    | cons c1 rest1 =>
      cases k with
      | zero =>
        have h0 : os.pipeFail i = some e := by simpa using hf
        simp [wirePipes, h0]
      | succ k =>
        have h0 : os.pipeFail i = none := by
          have := hpre 0 (Nat.succ_pos k)
          simpa using this
        have hk1 : k + 1 < (c1 :: rest1).length := by
          simp at hk ⊢
          omega
        have hf1 : os.pipeFail (i + 1 + k) = some e := by
          rw [show i + 1 + k = i + (k + 1) by omega]
          exact hf
        have hpre1 : ∀ j, j < k → os.pipeFail (i + 1 + j) = none := by
          intro j hj
          rw [show i + 1 + j = i + (j + 1) by omega]
          exact hpre (j + 1) (by omega)
        simp only [wirePipes, h0]
        rw [ih (i + 1) k hk1 hf1 hpre1]
        simp [List.get]

theorem startLoop_fail (os : OS) (i k : Nat) (l : List Cmd) (e : String)
    (hk : k < l.length) (hf : os.startFail (i + k) = some e)
    (hpre : ∀ j, j < k → os.startFail (i + j) = none) :
    startLoop os i l =
      ⟨some ((l.get ⟨k, hk⟩).path ++ " " ++ e),
       startedCmds i (l.take k) ++ l.drop k,
       (idxs i k).map Event.startOK ++ [Event.startFailEv (i + k)],
       startedDefs i (l.take k)⟩ := by
  induction l generalizing i k with
  | nil => simp at hk
  | cons c rest ih =>
    cases k with
    | zero =>
      have h0 : os.startFail i = some e := by simpa using hf
      simp [startLoop, h0, idxs, startedCmds, startedDefs]
    | succ k =>
      have h0 : os.startFail i = none := by
        have := hpre 0 (Nat.succ_pos k)
        simpa using this
      have hk1 : k < rest.length := by simpa using hk
      have hf1 : os.startFail (i + 1 + k) = some e := by
        rw [show i + 1 + k = i + (k + 1) by omega]
        exact hf
      have hpre1 : ∀ j, j < k → os.startFail (i + 1 + j) = none := by
        intro j hj
        rw [show i + 1 + j = i + (j + 1) by omega]
        exact hpre (j + 1) (by omega)
      simp only [startLoop, h0]
      rw [ih (i + 1) k hk1 hf1 hpre1]
      rw [show i + 1 + k = i + (k + 1) by omega]
      simp [startedCmds, startedDefs, idxs, List.get]

theorem waitLoop_fail (os : OS) (i k : Nat) (l : List Cmd) (e : String)
    (hk : k < l.length) (hf : os.waitFail (i + k) = some e)
    (hpre : ∀ j, j < k → os.waitFail (i + j) = none) :
    waitLoop os i l =
      ⟨some ((l.get ⟨k, hk⟩).path ++ " " ++ e),
       (idxs i k).map Event.waitOK ++ [Event.waitFailEv (i + k)]⟩ := by
  induction l generalizing i k with
  | nil => simp at hk
  | cons c rest ih =>
    cases k with
    | zero =>
      have h0 : os.waitFail i = some e := by simpa using hf
      simp [waitLoop, h0, idxs]
    | succ k =>
      have h0 : os.waitFail i = none := by
        have := hpre 0 (Nat.succ_pos k)
        simpa using this
      have hk1 : k < rest.length := by simpa using hk
      have hf1 : os.waitFail (i + 1 + k) = some e := by
        rw [show i + 1 + k = i + (k + 1) by omega]
        exact hf
      have hpre1 : ∀ j, j < k → os.waitFail (i + 1 + j) = none := by
        intro j hj
        rw [show i + 1 + j = i + (j + 1) by omega]
        exact hpre (j + 1) (by omega)
      simp only [waitLoop, h0]
      rw [ih (i + 1) k hk1 hf1 hpre1]
      rw [show i + 1 + k = i + (k + 1) by omega]
      simp [idxs, List.get]

theorem startLoop_ok (os : OS) (i : Nat) (l : List Cmd)
    (h : ∀ j, j < l.length → os.startFail (i + j) = none) :
    startLoop os i l =
      ⟨none, startedCmds i l, (idxs i l.length).map Event.startOK, startedDefs i l⟩ := by
  induction l generalizing i with
  | nil => rfl
  | cons c rest ih =>
    have h0 : os.startFail i = none := by
      have := h 0 (by simp)
      simpa using this
    have h1 : ∀ j, j < rest.length → os.startFail (i + 1 + j) = none := by
      intro j hj
      rw [show i + 1 + j = i + (j + 1) by omega]
      exact h (j + 1) (by simp; omega)
    simp [startLoop, h0, ih (i + 1) h1, startedCmds, startedDefs, idxs]

theorem startedCmds_get?_path (i : Nat) (l : List Cmd) (j : Nat) :
    ((startedCmds i l).get? j).map Cmd.path = (l.get? j).map Cmd.path := by
  induction l generalizing i j with
  | nil => rfl
  | cons c rest ih =>
    cases j with
    | zero => simp [startedCmds]
    | succ j => simpa [startedCmds] using ih (i + 1) j

theorem pw_no_waitOK (os : OS) (a b c : Option RW) (c0 : Cmd) (rest : List Cmd) (i : Nat) :
    Event.waitOK i ∉ (pipelineWired os a b c c0 rest).tr := by
  intro h
  rcases pipelineWired_tr_shape os a b c c0 rest _ h with ⟨j, hj | hj⟩ <;> simp at hj

theorem pw_no_waitFail (os : OS) (a b c : Option RW) (c0 : Cmd) (rest : List Cmd) (i : Nat) :
    Event.waitFailEv i ∉ (pipelineWired os a b c c0 rest).tr := by
  intro h
  rcases pipelineWired_tr_shape os a b c c0 rest _ h with ⟨j, hj | hj⟩ <;> simp at hj

theorem sl_no_waitOK (os : OS) (k : Nat) (l : List Cmd) (i : Nat) :
    Event.waitOK i ∉ (startLoop os k l).tr := by
  intro h
  rcases start_tr_shape os k l _ h with ⟨j, hj | hj⟩ <;> simp at hj

theorem sl_no_waitFail (os : OS) (k : Nat) (l : List Cmd) (i : Nat) :
    Event.waitFailEv i ∉ (startLoop os k l).tr := by
  intro h
  rcases start_tr_shape os k l _ h with ⟨j, hj | hj⟩ <;> simp at hj

theorem de_no_waitOK (b : Bool) (ds : List (Nat × Cmd)) (i : Nat) :
    Event.waitOK i ∉ deferEvents b ds := by
  intro h
  rcases deferEvents_shape b ds _ h with ⟨j, hj | hj⟩ <;> simp at hj

theorem de_no_waitFail (b : Bool) (ds : List (Nat × Cmd)) (i : Nat) :
    Event.waitFailEv i ∉ deferEvents b ds := by
  intro h
  rcases deferEvents_shape b ds _ h with ⟨j, hj | hj⟩ <;> simp at hj

/-! ## Index-level lemmas about the wired descriptor states -/

theorem setHeadStdin_get?_succ (v : Option RW) (l : List Cmd) (j : Nat) :
    (setHeadStdin v l).get? (j + 1) = l.get? (j + 1) := by
  cases l <;> simp [setHeadStdin]

theorem setHeadStdin_get?_zero (v : Option RW) (c : Cmd) (l : List Cmd) :
    (setHeadStdin v (c :: l)).get? 0 = some { c with stdin := v } := by
  simp [setHeadStdin]

theorem setHeadStdin_get?_map {α : Type} (v : Option RW) (l : List Cmd) (j : Nat)
    (f : Cmd → α) (hf : ∀ c, f { c with stdin := v } = f c) :
    ((setHeadStdin v l).get? j).map f = (l.get? j).map f := by
  cases l with
  | nil => rfl
  | cons c rest => cases j <;> simp [setHeadStdin, hf]

theorem wireSpec_length (sv : RW) (i : Nat) (l : List Cmd) :
    (wireSpecCmds sv i l).length = l.length := by
  induction l generalizing i with
  | nil => rfl
  | cons c rest ih =>
    cases rest with
    | nil => rfl
    | cons c1 rest1 =>
      simp only [wireSpecCmds, List.length_cons]
      cases hW : wireSpecCmds sv (i + 1) (c1 :: rest1) with
      | nil => have := ih (i + 1); rw [hW] at this; simp at this
      | cons d ds =>
        have := ih (i + 1)
        rw [hW] at this
        simp [setHeadStdin]
        simp at this
        omega

theorem wireSpec_get?_map {α : Type} (sv : RW) (i : Nat) (l : List Cmd) (j : Nat)
    (f : Cmd → α)
    (hf1 : ∀ c o e, f { c with stdout := o, stderr := e } = f c)
    (hf2 : ∀ c v, f { c with stdin := v } = f c) :
    ((wireSpecCmds sv i l).get? j).map f = (l.get? j).map f := by
  induction l generalizing i j with
  | nil => rfl
  | cons c rest ih =>
    cases rest with
    | nil => rfl
    | cons c1 rest1 =>
      cases j with
      | zero => simp [wireSpecCmds, hf1]
      | succ j =>
        simp only [wireSpecCmds, List.get?_cons_succ]
        calc ((setHeadStdin (some (RW.pipeR i))
                (wireSpecCmds sv (i + 1) (c1 :: rest1))).get? j).map f
            = ((wireSpecCmds sv (i + 1) (c1 :: rest1)).get? j).map f := by
              exact setHeadStdin_get?_map _ _ _ f (fun x => hf2 x _)
          _ = ((c1 :: rest1).get? j).map f := ih (i + 1) j

theorem wireSpec_stdout_mid (sv : RW) (i : Nat) (l : List Cmd) (j : Nat)
    (hj : j + 1 < l.length) :
    ((wireSpecCmds sv i l).get? j).map Cmd.stdout = some (some (RW.pipeW (i + j))) := by
  induction l generalizing i j with
  | nil => simp at hj
  | cons c rest ih =>
    cases rest with
    | nil => simp at hj
    | cons c1 rest1 =>
      cases j with
      | zero => simp [wireSpecCmds]
      | succ j =>
        have hj1 : j + 1 < (c1 :: rest1).length := by simp at hj ⊢; omega
        simp only [wireSpecCmds, List.get?_cons_succ]
        rw [setHeadStdin_get?_map _ _ _ Cmd.stdout (fun x => rfl)]
        rw [ih (i + 1) j hj1]
        rw [show i + 1 + j = i + (j + 1) by omega]

theorem wireSpec_stderr_mid (sv : RW) (i : Nat) (l : List Cmd) (j : Nat)
    (hj : j + 1 < l.length) :
    ((wireSpecCmds sv i l).get? j).map Cmd.stderr = some (some sv) := by
  induction l generalizing i j with
  | nil => simp at hj
  | cons c rest ih =>
    cases rest with
    | nil => simp at hj
    | cons c1 rest1 =>
      cases j with
      | zero => simp [wireSpecCmds]
      | succ j =>
        have hj1 : j + 1 < (c1 :: rest1).length := by simp at hj ⊢; omega
        simp only [wireSpecCmds, List.get?_cons_succ]
        rw [setHeadStdin_get?_map _ _ _ Cmd.stderr (fun x => rfl)]
        exact ih (i + 1) j hj1

theorem wireSpec_stdin_succ (sv : RW) (i : Nat) (l : List Cmd) (j : Nat)
    (hj : j + 1 < l.length) :
    ((wireSpecCmds sv i l).get? (j + 1)).map Cmd.stdin = some (some (RW.pipeR (i + j))) := by
  induction l generalizing i j with
  | nil => simp at hj
  | cons c rest ih =>
    cases rest with
    | nil => simp at hj
    | cons c1 rest1 =>
      cases j with
      | zero =>
        cases rest1 with
        | nil => simp [wireSpecCmds, setHeadStdin]
        | cons c2 rest2 => simp [wireSpecCmds, setHeadStdin]
      | succ j =>
        have hj1 : j + 1 < (c1 :: rest1).length := by simp at hj ⊢; omega
        simp only [wireSpecCmds, List.get?_cons_succ]
        rw [setHeadStdin_get?_succ]
        rw [ih (i + 1) j hj1]
        rw [show i + 1 + j = i + (j + 1) by omega]

theorem wireSpec_stdin_zero (sv : RW) (i : Nat) (l : List Cmd) :
    ((wireSpecCmds sv i l).get? 0).map Cmd.stdin = (l.get? 0).map Cmd.stdin := by
  cases l with
  | nil => rfl
  | cons c rest =>
    cases rest with
    | nil => rfl
    | cons c1 rest1 => simp [wireSpecCmds]

theorem wireSpec_last_stdout (sv : RW) (i : Nat) (l : List Cmd) :
    ((wireSpecCmds sv i l).get? (l.length - 1)).map Cmd.stdout =
      (l.get? (l.length - 1)).map Cmd.stdout := by
  induction l generalizing i with
  | nil => rfl
  | cons c rest ih =>
    cases rest with
    | nil => rfl
    | cons c1 rest1 =>
      have hlen : (c :: c1 :: rest1).length - 1 = ((c1 :: rest1).length - 1) + 1 := by
        simp
      rw [hlen]
      simp only [wireSpecCmds, List.get?_cons_succ]
      rw [setHeadStdin_get?_map _ _ _ Cmd.stdout (fun x => rfl)]
      exact ih (i + 1)

theorem wireSpec_last_stderr (sv : RW) (i : Nat) (l : List Cmd) :
    ((wireSpecCmds sv i l).get? (l.length - 1)).map Cmd.stderr =
      (l.get? (l.length - 1)).map Cmd.stderr := by
  induction l generalizing i with
  | nil => rfl
  | cons c rest ih =>
    cases rest with
    | nil => rfl
    | cons c1 rest1 =>
      have hlen : (c :: c1 :: rest1).length - 1 = ((c1 :: rest1).length - 1) + 1 := by
        simp
      rw [hlen]
      simp only [wireSpecCmds, List.get?_cons_succ]
      rw [setHeadStdin_get?_map _ _ _ Cmd.stderr (fun x => rfl)]
      exact ih (i + 1)

theorem setLast_length (ov sv : RW) (l : List Cmd) :
    (setLast ov sv l).length = l.length := by
  induction l with
  | nil => rfl
  | cons c rest ih =>
    cases rest with
    | nil => rfl
    | cons c1 rest1 => simpa [setLast] using ih

theorem setLast_get?_of_lt (ov sv : RW) (l : List Cmd) (j : Nat) (hj : j + 1 < l.length) :
    (setLast ov sv l).get? j = l.get? j := by
  induction l generalizing j with
  | nil => simp at hj
  | cons c rest ih =>
    cases rest with
    | nil => simp at hj
    | cons c1 rest1 =>
      cases j with
      | zero => simp [setLast]
      | succ j =>
        have hj1 : j + 1 < (c1 :: rest1).length := by simp at hj ⊢; omega
        simp only [setLast, List.get?_cons_succ]
        exact ih j hj1

theorem setLast_get?_last (ov sv : RW) (l : List Cmd) :
    (setLast ov sv l).get? (l.length - 1) =
      (l.get? (l.length - 1)).map
        (fun c => { c with stdout := some ov, stderr := some sv }) := by
  induction l with
  | nil => rfl
  | cons c rest ih =>
    cases rest with
    | nil => simp [setLast]
    | cons c1 rest1 =>
      have hlen : (c :: c1 :: rest1).length - 1 = ((c1 :: rest1).length - 1) + 1 := by
        simp
      rw [hlen]
      simp only [setLast, List.get?_cons_succ]
      exact ih

theorem setLast_get?_map {α : Type} (ov sv : RW) (l : List Cmd) (j : Nat)
    (f : Cmd → α)
    (hf : ∀ c, f { c with stdout := some ov, stderr := some sv } = f c) :
    ((setLast ov sv l).get? j).map f = (l.get? j).map f := by
  induction l generalizing j with
  | nil => rfl
  | cons c rest ih =>
    cases rest with
    | nil => cases j <;> simp [setLast, hf]
    | cons c1 rest1 =>
      cases j with
      | zero => simp [setLast]
      | succ j =>
        simp only [setLast, List.get?_cons_succ]
        exact ih j

theorem attachStdin_get?_map {α : Type} (a : Option RW) (c0 : Cmd) (rest : List Cmd)
    (j : Nat) (f : Cmd → α) (hf : ∀ c v, f { c with stdin := v } = f c) :
    ((attachStdin a c0 :: rest).get? j).map f = ((c0 :: rest).get? j).map f := by
  cases j with
  | zero => cases a <;> simp [attachStdin, hf]
  | succ j => simp

/-- When no pipe creation fails, the wiring phase succeeds and its state is
the `setLast`-completed `wireSpecCmds` form. -/
theorem pipelineWired_ok (os : OS) (a b c : Option RW) (c0 : Cmd) (rest : List Cmd)
    (h : ∀ j, j + 1 < (c0 :: rest).length → os.pipeFail j = none) :
    (pipelineWired os a b c c0 rest).err = none ∧
    (pipelineWired os a b c c0 rest).cmds =
      setLast (b.getD RW.discard) (c.getD RW.discard)
        (wireSpecCmds (c.getD RW.discard) 0 (attachStdin a c0 :: rest)) := by
  have hwp := wirePipes_ok os (c.getD RW.discard) 0 (attachStdin a c0 :: rest)
    (fun j hj => by simpa using h j (by simpa using hj))
  refine ⟨?_, ?_⟩
  · rw [pipelineWired_err, hwp]
  · rw [pipelineWired_cmds_ok os a b c c0 rest (by rw [hwp]), hwp]

theorem pipelineWired_length (os : OS) (a b c : Option RW) (c0 : Cmd) (rest : List Cmd)
    (h : ∀ j, j + 1 < (c0 :: rest).length → os.pipeFail j = none) :
    (pipelineWired os a b c c0 rest).cmds.length = rest.length + 1 := by
  rw [(pipelineWired_ok os a b c c0 rest h).2, setLast_length, wireSpec_length]
  simp

theorem pipelineWired_map_path (os : OS) (a b c : Option RW) (c0 : Cmd) (rest : List Cmd)
    (h : ∀ j, j + 1 < (c0 :: rest).length → os.pipeFail j = none) (j : Nat) :
    (((pipelineWired os a b c c0 rest).cmds).get? j).map Cmd.path =
      ((c0 :: rest).get? j).map Cmd.path := by
  rw [(pipelineWired_ok os a b c c0 rest h).2]
  rw [setLast_get?_map _ _ _ _ Cmd.path (fun x => rfl)]
  rw [wireSpec_get?_map _ _ _ _ Cmd.path (fun x o e => rfl) (fun x v => rfl)]
  exact attachStdin_get?_map a c0 rest j Cmd.path (fun x v => rfl)

/-- A start failure at stage k (with wiring succeeding and all earlier
starts succeeding) surfaces stage k's path with the OS error text. -/
theorem pipeline_start_fail_res (os : OS) (a b c : Option RW) (c0 : Cmd)
    (rest : List Cmd) (k : Nat) (ck : Cmd) (e : String)
    (hw : ∀ j, j + 1 < (c0 :: rest).length → os.pipeFail j = none)
    (hk : (c0 :: rest).get? k = some ck)
    (hf : os.startFail k = some e)
    (hpre : ∀ i, i < k → os.startFail i = none) :
    (ExecPipeline os (c0 :: rest) a b c).res = some (ck.path ++ " " ++ e) := by
  obtain ⟨hkn, -⟩ := List.get?_eq_some.mp hk
  have hpw := pipelineWired_ok os a b c c0 rest hw
  have hlen := pipelineWired_length os a b c c0 rest hw
  have hkW : k < (pipelineWired os a b c c0 rest).cmds.length := by
    rw [hlen]
    simp only [List.length_cons] at hkn
    omega
  have hSL := startLoop_fail os 0 k (pipelineWired os a b c c0 rest).cmds e hkW
    (by simpa using hf) (fun j hj => by simpa using hpre j hj)
  have hpath : ((pipelineWired os a b c c0 rest).cmds.get ⟨k, hkW⟩).path = ck.path := by
    have h1 := pipelineWired_map_path os a b c c0 rest hw k
    rw [List.get?_eq_get hkW, hk] at h1
    simpa using h1
  have hserr : (startLoop os 0 (pipelineWired os a b c c0 rest).cmds).err =
      some (ck.path ++ " " ++ e) := by
    rw [hSL, ← hpath]
  rw [ExecPipeline_start_fail os c0 rest a b c _ hpw.1 hserr]

/-- A first wait failure at stage k (with wiring and all starts
succeeding) surfaces stage k's path with the OS error text. -/
theorem pipeline_wait_fail_res (os : OS) (a b c : Option RW) (c0 : Cmd)
    (rest : List Cmd) (k : Nat) (ck : Cmd) (e : String)
    (hw : ∀ j, j + 1 < (c0 :: rest).length → os.pipeFail j = none)
    (hs : ∀ i, i < (c0 :: rest).length → os.startFail i = none)
    (hk : (c0 :: rest).get? k = some ck)
    (hf : os.waitFail k = some e)
    (hpre : ∀ i, i < k → os.waitFail i = none) :
    (ExecPipeline os (c0 :: rest) a b c).res = some (ck.path ++ " " ++ e) := by
  obtain ⟨hkn, -⟩ := List.get?_eq_some.mp hk
  have hpw := pipelineWired_ok os a b c c0 rest hw
  have hlen := pipelineWired_length os a b c c0 rest hw
  have hSok := startLoop_ok os 0 (pipelineWired os a b c c0 rest).cmds
    (fun j hj => by
      rw [hlen] at hj
      simpa using hs j (by simp only [List.length_cons]; omega))
  have hserr : (startLoop os 0 (pipelineWired os a b c c0 rest).cmds).err = none := by
    rw [hSok]
  have hkW : k < (startLoop os 0 (pipelineWired os a b c c0 rest).cmds).cmds.length := by
    rw [startLoop_cmds_length, hlen]
    simp only [List.length_cons] at hkn
    omega
  have hWL := waitLoop_fail os 0 k
    (startLoop os 0 (pipelineWired os a b c c0 rest).cmds).cmds e hkW
    (by simpa using hf) (fun j hj => by simpa using hpre j hj)
  have hpath :
      ((startLoop os 0 (pipelineWired os a b c c0 rest).cmds).cmds.get ⟨k, hkW⟩).path =
        ck.path := by
    have h1 : (((startLoop os 0 (pipelineWired os a b c c0 rest).cmds).cmds).get? k).map
        Cmd.path = ((c0 :: rest).get? k).map Cmd.path := by
      rw [startLoop_cmds_ok os 0 _ hserr, startedCmds_get?_path]
      exact pipelineWired_map_path os a b c c0 rest hw k
    rw [List.get?_eq_get hkW, hk] at h1
    simpa using h1
  rw [ExecPipeline_started os c0 rest a b c hpw.1 hserr]
  show (waitLoop os 0 (startLoop os 0 (pipelineWired os a b c c0 rest).cmds).cmds).err =
    some (ck.path ++ " " ++ e)
  rw [hWL, ← hpath]

/-- The pipe-wiring loop never touches the first descriptor's stdin. -/
theorem wire_head_stdin (os : OS) (sv : RW) (i : Nat) (l : List Cmd) :
    ((wirePipes os sv i l).cmds).head?.map Cmd.stdin = l.head?.map Cmd.stdin := by
  cases l with
  | nil => rfl
  | cons c rest =>
    cases rest with
    | nil => rfl
    | cons c1 rest1 => cases h : os.pipeFail i <;> simp [wirePipes, h]

/-- Attaching output and error to the last descriptor never touches the
first descriptor's stdin. -/
theorem setLast_head_stdin (ov sv : RW) (l : List Cmd) :
    ((setLast ov sv l).head?).map Cmd.stdin = l.head?.map Cmd.stdin := by
  cases l with
  | nil => rfl
  | cons c rest => cases rest <;> simp [setLast]

/-- The start loop never touches the first descriptor's stdin. -/
theorem startLoop_head_stdin (os : OS) (i : Nat) (l : List Cmd) :
    (((startLoop os i l).cmds).head?).map Cmd.stdin = l.head?.map Cmd.stdin := by
  cases l with
  | nil => rfl
  | cons c rest => cases h : os.startFail i <;> simp [startLoop, h]

/-- With no external input supplied, the wiring phase leaves the first
descriptor's stdin exactly as the caller set it (on every path). -/
theorem pipelineWired_head_stdin (os : OS) (b c : Option RW) (c0 : Cmd)
    (rest : List Cmd) :
    (((pipelineWired os none b c c0 rest).cmds).head?).map Cmd.stdin = some c0.stdin := by
  unfold pipelineWired
  cases hw : (wirePipes os (c.getD RW.discard) 0 (attachStdin none c0 :: rest)).err with
  | some e =>
    simp only [hw]
    rw [wire_head_stdin]
    rfl
  | none =>
    simp only [hw]
    rw [setLast_head_stdin, wire_head_stdin]
    rfl

/-- With no external input supplied, `ExecPipeline` leaves the first
descriptor's stdin exactly as the caller set it (on every exit path). -/
theorem pipeline_head_stdin (os : OS) (b c : Option RW) (c0 : Cmd) (rest : List Cmd) :
    (((ExecPipeline os (c0 :: rest) none b c).cmds).head?).map Cmd.stdin =
      some c0.stdin := by
  cases hw : (pipelineWired os none b c c0 rest).err with
  | some e =>
    rw [ExecPipeline_wire_fail os c0 rest none b c e hw]
    exact pipelineWired_head_stdin os b c c0 rest
  | none =>
    cases hs : (startLoop os 0 (pipelineWired os none b c c0 rest).cmds).err with
    | some e =>
      rw [ExecPipeline_start_fail os c0 rest none b c e hw hs]
      show (((startLoop os 0 (pipelineWired os none b c c0 rest).cmds).cmds).head?).map
        Cmd.stdin = some c0.stdin
      rw [startLoop_head_stdin]
      exact pipelineWired_head_stdin os b c c0 rest
    | none =>
      rw [ExecPipeline_started os c0 rest none b c hw hs]
      show (((startLoop os 0 (pipelineWired os none b c c0 rest).cmds).cmds).head?).map
        Cmd.stdin = some c0.stdin
      rw [startLoop_head_stdin]
      exact pipelineWired_head_stdin os b c c0 rest

/-- Under successful wiring, the last descriptor's output is the external
output destination (discard when omitted). -/
theorem pipelineWired_last_stdout (os : OS) (a b c : Option RW) (c0 : Cmd)
    (rest : List Cmd)
    (h : ∀ j, j + 1 < (c0 :: rest).length → os.pipeFail j = none) :
    ((pipelineWired os a b c c0 rest).cmds.get? ((c0 :: rest).length - 1)).map
      Cmd.stdout = some (some (b.getD RW.discard)) := by
  have hW := (pipelineWired_ok os a b c c0 rest h).2
  have hWSlen :
      (wireSpecCmds (c.getD RW.discard) 0 (attachStdin a c0 :: rest)).length =
        rest.length + 1 := by
    rw [wireSpec_length]
    simp
  rw [hW]
  have hidx : (c0 :: rest).length - 1 =
      (wireSpecCmds (c.getD RW.discard) 0 (attachStdin a c0 :: rest)).length - 1 := by
    rw [hWSlen]
    simp
  rw [hidx, setLast_get?_last]
  have hlt :
      (wireSpecCmds (c.getD RW.discard) 0 (attachStdin a c0 :: rest)).length - 1 <
        (wireSpecCmds (c.getD RW.discard) 0 (attachStdin a c0 :: rest)).length := by
    rw [hWSlen]
    omega
  rw [List.get?_eq_get hlt]
  simp

/-- Under successful wiring, every descriptor's error stream is the single
shared error destination (discard when omitted). -/
theorem pipelineWired_stderr_all (os : OS) (a b c : Option RW) (c0 : Cmd)
    (rest : List Cmd)
    (h : ∀ j, j + 1 < (c0 :: rest).length → os.pipeFail j = none)
    (j : Nat) (hj : j < (c0 :: rest).length) :
    ((pipelineWired os a b c c0 rest).cmds.get? j).map Cmd.stderr =
      some (some (c.getD RW.discard)) := by
  have hW := (pipelineWired_ok os a b c c0 rest h).2
  have hWSlen :
      (wireSpecCmds (c.getD RW.discard) 0 (attachStdin a c0 :: rest)).length =
        rest.length + 1 := by
    rw [wireSpec_length]
    simp
  by_cases hj2 : j + 1 < (c0 :: rest).length
  · have hj1 : j + 1 <
        (wireSpecCmds (c.getD RW.discard) 0 (attachStdin a c0 :: rest)).length := by
      rw [hWSlen]
      simpa using hj2
    have hj0 : j + 1 < (attachStdin a c0 :: rest).length := by simpa using hj2
    rw [hW, setLast_get?_of_lt _ _ _ j hj1]
    exact wireSpec_stderr_mid (c.getD RW.discard) 0 (attachStdin a c0 :: rest) j hj0
  · have hjlast : j = (c0 :: rest).length - 1 := by
      simp only [List.length_cons] at hj hj2 ⊢
      omega
    subst hjlast
    rw [hW]
    have hidx : (c0 :: rest).length - 1 =
        (wireSpecCmds (c.getD RW.discard) 0 (attachStdin a c0 :: rest)).length - 1 := by
      rw [hWSlen]
      simp
    rw [hidx, setLast_get?_last]
    have hlt :
        (wireSpecCmds (c.getD RW.discard) 0 (attachStdin a c0 :: rest)).length - 1 <
          (wireSpecCmds (c.getD RW.discard) 0 (attachStdin a c0 :: rest)).length := by
      rw [hWSlen]
      omega
    rw [List.get?_eq_get hlt]
    simp

/-! ## The claims -/

/-- Claim C4: for every pipeline of n ≥ 1 descriptors, before any descriptor
is started the executor establishes the wiring invariant: a pipe connection
is created for each adjacent pair (i, i+1) left to right so that descriptor
i's output stream is the write end and descriptor i+1's input stream the
read end of pipe i, only descriptor 0 keeps the externally supplied input
(and only when one is supplied), only the last descriptor's output is the
external output destination, and every descriptor's error stream is the
single shared error destination; any pipe-creation failure is reported,
tagged with that stage's path, before any process is started. -/
theorem C4_wiring_invariant (os : OS) (a b c : Option RW) (c0 : Cmd) (rest : List Cmd) :
    ((∀ j, j + 1 < (c0 :: rest).length → os.pipeFail j = none) →
      (pipelineWired os a b c c0 rest).cmds.length = (c0 :: rest).length ∧
      (∀ j, j + 1 < (c0 :: rest).length →
        ((pipelineWired os a b c c0 rest).cmds.get? j).map Cmd.stdout =
            some (some (RW.pipeW j)) ∧
          ((pipelineWired os a b c c0 rest).cmds.get? (j + 1)).map Cmd.stdin =
            some (some (RW.pipeR j))) ∧
      ((pipelineWired os a b c c0 rest).cmds.get? 0).map Cmd.stdin =
        some (attachStdin a c0).stdin ∧
      ((pipelineWired os a b c c0 rest).cmds.get?
          ((c0 :: rest).length - 1)).map Cmd.stdout =
        some (some (b.getD RW.discard)) ∧
      (∀ j, j < (c0 :: rest).length →
        ((pipelineWired os a b c c0 rest).cmds.get? j).map Cmd.stderr =
          some (some (c.getD RW.discard)))) ∧
    (∀ k e ck, os.pipeFail k = some e → (∀ j, j < k → os.pipeFail j = none) →
      k + 1 < (c0 :: rest).length → (c0 :: rest).get? k = some ck →
      (ExecPipeline os (c0 :: rest) a b c).res = some (ck.path ++ " " ++ e) ∧
      ∀ i, Event.startOK i ∉ (ExecPipeline os (c0 :: rest) a b c).trace) := by
  constructor
  · intro h
    have hW := (pipelineWired_ok os a b c c0 rest h).2
    have hWSlen :
        (wireSpecCmds (c.getD RW.discard) 0 (attachStdin a c0 :: rest)).length =
          rest.length + 1 := by
      rw [wireSpec_length]
      simp
    refine ⟨?_, ?_, ?_, ?_, ?_⟩
    · rw [pipelineWired_length os a b c c0 rest h]
      simp
    · intro j hj
      have hj1 : j + 1 <
          (wireSpecCmds (c.getD RW.discard) 0 (attachStdin a c0 :: rest)).length := by
        rw [hWSlen]
        simpa using hj
      have hj0 : j + 1 < (attachStdin a c0 :: rest).length := by simpa using hj
      constructor
      · rw [hW, setLast_get?_of_lt _ _ _ j hj1]
        have := wireSpec_stdout_mid (c.getD RW.discard) 0 (attachStdin a c0 :: rest) j hj0
        simpa using this
      · rw [hW, setLast_get?_map _ _ _ _ Cmd.stdin (fun x => rfl)]
        have := wireSpec_stdin_succ (c.getD RW.discard) 0 (attachStdin a c0 :: rest) j hj0
        simpa using this
    · rw [hW, setLast_get?_map _ _ _ _ Cmd.stdin (fun x => rfl), wireSpec_stdin_zero]
      rfl
    · rw [hW]
      have hidx : (c0 :: rest).length - 1 =
          (wireSpecCmds (c.getD RW.discard) 0 (attachStdin a c0 :: rest)).length - 1 := by
        rw [hWSlen]
        simp
      rw [hidx, setLast_get?_last]
      have hlt :
          (wireSpecCmds (c.getD RW.discard) 0 (attachStdin a c0 :: rest)).length - 1 <
            (wireSpecCmds (c.getD RW.discard) 0 (attachStdin a c0 :: rest)).length := by
        rw [hWSlen]
        omega
      rw [List.get?_eq_get hlt]
      simp
    · intro j hj
      by_cases hj2 : j + 1 < (c0 :: rest).length
      · have hj1 : j + 1 <
            (wireSpecCmds (c.getD RW.discard) 0 (attachStdin a c0 :: rest)).length := by
          rw [hWSlen]
          simpa using hj2
        have hj0 : j + 1 < (attachStdin a c0 :: rest).length := by simpa using hj2
        rw [hW, setLast_get?_of_lt _ _ _ j hj1]
        exact wireSpec_stderr_mid (c.getD RW.discard) 0 (attachStdin a c0 :: rest) j hj0
      · have hjlast : j = (c0 :: rest).length - 1 := by
          simp only [List.length_cons] at hj hj2 ⊢
          omega
        subst hjlast
        rw [hW]
        have hidx : (c0 :: rest).length - 1 =
            (wireSpecCmds (c.getD RW.discard) 0 (attachStdin a c0 :: rest)).length - 1 := by
          rw [hWSlen]
          simp
        rw [hidx, setLast_get?_last]
        have hlt :
            (wireSpecCmds (c.getD RW.discard) 0 (attachStdin a c0 :: rest)).length - 1 <
              (wireSpecCmds (c.getD RW.discard) 0 (attachStdin a c0 :: rest)).length := by
          rw [hWSlen]
          omega
        rw [List.get?_eq_get hlt]
        simp
  · intro k e ck hkf hkpre hklt hkget
    have hk2 : k + 1 < (attachStdin a c0 :: rest).length := by simpa using hklt
    have herr := wirePipes_fail os (c.getD RW.discard) 0 k (attachStdin a c0 :: rest) e
      hk2 (by simpa using hkf) (fun j hj => by simpa using hkpre j hj)
    have hpath : ∀ hh : k < (attachStdin a c0 :: rest).length,
        ((attachStdin a c0 :: rest).get ⟨k, hh⟩).path = ck.path := by
      intro hh
      have hmap := attachStdin_get?_map a c0 rest k Cmd.path (fun x v => rfl)
      rw [List.get?_eq_get hh, hkget] at hmap
      simpa using hmap
    have hpwerr : (pipelineWired os a b c c0 rest).err = some (ck.path ++ " " ++ e) := by
      rw [pipelineWired_err, herr, hpath]
    have hEx := ExecPipeline_wire_fail os c0 rest a b c _ hpwerr
    rw [hEx]
    exact ⟨rfl, fun i => pw_no_startOK os a b c c0 rest i⟩

/-- Witness for C4 at concrete inputs: on the all-success oracle a
two-stage pipeline is wired with pipe 0 between the stages, and on an
oracle whose pipe creation fails the call reports stage 0's path and
starts nothing. -/
theorem C4_wiring_invariant_witness :
    (((pipelineWired osOK none none none cmdA [cmdB]).cmds.get? 0).map Cmd.stdout =
        some (some (RW.pipeW 0)) ∧
      ((pipelineWired osOK none none none cmdA [cmdB]).cmds.get? 1).map Cmd.stdin =
        some (some (RW.pipeR 0))) ∧
    ((ExecPipeline osPipe0 [cmdA, cmdB] none none none).res =
        some ("a" ++ " " ++ "too many open files") ∧
      Event.startOK 0 ∉ (ExecPipeline osPipe0 [cmdA, cmdB] none none none).trace) :=
  ⟨((C4_wiring_invariant osOK none none none cmdA [cmdB]).1 (fun j hj => rfl)).2.1 0
      (by decide),
   ⟨((C4_wiring_invariant osPipe0 none none none cmdA [cmdB]).2 0 "too many open files"
        cmdA (by decide) (fun j hj => absurd hj (by omega)) (by decide) (by decide)).1,
    ((C4_wiring_invariant osPipe0 none none none cmdA [cmdB]).2 0 "too many open files"
        cmdA (by decide) (fun j hj => absurd hj (by omega)) (by decide) (by decide)).2 0⟩⟩

/-- Claim C5: the pipeline executor starts descriptors in order 0..n-1; if
starting descriptor k fails, no descriptor with index greater than k is
started, the call returns a failure tagged with descriptor k's path and
the OS error text, and every descriptor with index less than k (already
started) is still killed and reaped before the call returns. -/
theorem C5_start_failure (os : OS) (a b c : Option RW) (c0 : Cmd) (rest : List Cmd)
    (k : Nat) (ck : Cmd) (e : String)
    (hw : ∀ j, j + 1 < (c0 :: rest).length → os.pipeFail j = none)
    (hk : (c0 :: rest).get? k = some ck)
    (hf : os.startFail k = some e)
    (hpre : ∀ i, i < k → os.startFail i = none) :
    (ExecPipeline os (c0 :: rest) a b c).res = some (ck.path ++ " " ++ e) ∧
    (∀ i, k ≤ i → Event.startOK i ∉ (ExecPipeline os (c0 :: rest) a b c).trace) ∧
    (∀ i, i < k →
      Event.startOK i ∈ (ExecPipeline os (c0 :: rest) a b c).trace ∧
      Event.sigKill i ∈ (ExecPipeline os (c0 :: rest) a b c).trace ∧
      Event.reap i ∈ (ExecPipeline os (c0 :: rest) a b c).trace) := by
  obtain ⟨hkn, -⟩ := List.get?_eq_some.mp hk
  have hpw := pipelineWired_ok os a b c c0 rest hw
  have hlen := pipelineWired_length os a b c c0 rest hw
  have hkW : k < (pipelineWired os a b c c0 rest).cmds.length := by
    rw [hlen]
    simp only [List.length_cons] at hkn
    omega
  have hSL := startLoop_fail os 0 k (pipelineWired os a b c c0 rest).cmds e hkW
    (by simpa using hf) (fun j hj => by simpa using hpre j hj)
  have hpath : ((pipelineWired os a b c c0 rest).cmds.get ⟨k, hkW⟩).path = ck.path := by
    have h1 := pipelineWired_map_path os a b c c0 rest hw k
    rw [List.get?_eq_get hkW, hk] at h1
    simpa using h1
  have hserr : (startLoop os 0 (pipelineWired os a b c c0 rest).cmds).err =
      some (ck.path ++ " " ++ e) := by
    rw [hSL, ← hpath]
  have hEx := ExecPipeline_start_fail os c0 rest a b c _ hpw.1 hserr
  rw [hEx]
  refine ⟨rfl, ?_, ?_⟩
  · intro i hi hmem
    simp only [List.mem_append] at hmem
    rcases hmem with hm | hm | hm
    · exact pw_no_startOK os a b c c0 rest i hm
    · rw [hSL] at hm
      simp only [List.mem_append, List.mem_map, List.mem_singleton] at hm
      rcases hm with ⟨j, hj, hje⟩ | hm
      · have hji : j = i := by injection hje
        subst hji
        have := mem_idxs.mp hj
        omega
      · simp at hm
    · exact de_no_startOK _ _ i hm
  · intro i hi
    have hmemS : Event.startOK i ∈
        (startLoop os 0 (pipelineWired os a b c c0 rest).cmds).tr := by
      rw [hSL]
      simp only [List.mem_append, List.mem_map]
      exact Or.inl ⟨i, mem_idxs.mpr (by omega), rfl⟩
    have hks := started_mem_kill os 0 (pipelineWired os a b c c0 rest).cmds i hmemS
    simp only [List.mem_append]
    exact ⟨Or.inr (Or.inl hmemS), Or.inr (Or.inr hks.1), Or.inr (Or.inr hks.2)⟩

/-- Witness for C5 at a concrete input: in a two-stage pipeline where
starting stage 1 fails, the error carries stage 1's path and the OS error
text, stage 1 is never started, and stage 0 is started, killed and
reaped. -/
theorem C5_start_failure_witness :
    (ExecPipeline osStart1 [cmdA, cmdB] none none none).res =
        some ("b" ++ " " ++ "no such file or directory") ∧
    Event.startOK 1 ∉ (ExecPipeline osStart1 [cmdA, cmdB] none none none).trace ∧
    Event.startOK 0 ∈ (ExecPipeline osStart1 [cmdA, cmdB] none none none).trace ∧
    Event.sigKill 0 ∈ (ExecPipeline osStart1 [cmdA, cmdB] none none none).trace ∧
    Event.reap 0 ∈ (ExecPipeline osStart1 [cmdA, cmdB] none none none).trace := by
  have h := C5_start_failure osStart1 none none none cmdA [cmdB] 1 cmdB
    "no such file or directory" (fun j hj => rfl) (by decide) (by decide)
    (fun i hi => by simp [osStart1, show i ≠ 1 by omega])
  exact ⟨h.1, h.2.1 1 (by omega), (h.2.2 0 (by omega)).1, (h.2.2 0 (by omega)).2.1,
    (h.2.2 0 (by omega)).2.2⟩

/-- Claim C6: for every pipeline call given a zero-length sequence of
descriptors, the call (and each pipeline convenience variant layered on
it) returns a configuration error immediately, spawns zero processes,
performs no OS interaction (empty event trace), and leaves every
descriptor unmodified (the empty descriptor list is returned as-is). -/
theorem C6_empty_pipeline (os : OS) (a b c : Option RW) (ot et : String) :
    ExecPipeline os [] a b c =
      ⟨some "No commands provided to ExecPipeline", [], []⟩ ∧
    (ExecPipelineE os [] a b et).1 =
      some ("No commands provided to ExecPipeline" ++ " - " ++ et) ∧
    (ExecPipelineO os [] a ot et).2 =
      some ("No commands provided to ExecPipeline" ++ " - " ++ et) :=
  ⟨rfl, rfl, rfl⟩

/-- Counterexample to claim C3 as stated: `ExecO` does not return the
private buffer's bytes alongside a non-nil error — on a failing run whose
output buffer holds "hello" it returns nil bytes. -/
theorem C3_output_capture_cex :
    (ExecO osWait0 cmdA none "hello" "").2 ≠ none ∧
    (ExecO osWait0 cmdA none "hello" "").1 = none ∧
    (ExecO osWait0 cmdA none "hello" "").1 ≠ some "hello" := by
  decide

/-- Claim C3 (amended): `ExecPipelineO` returns the private output buffer's
bytes alongside the (possibly nil) error; `ExecO` returns the buffer's
bytes only when the error is nil, and returns nil bytes when the error is
non-nil. -/
theorem C3_output_capture (os : OS) (cmd : Cmd) (cmds : List Cmd) (a : Option RW)
    (ot et : String) :
    (ExecPipelineO os cmds a ot et).1 = some ot ∧
    ((ExecO os cmd a ot et).2 = none → (ExecO os cmd a ot et).1 = some ot) ∧
    ((ExecO os cmd a ot et).2 ≠ none → (ExecO os cmd a ot et).1 = none) := by
  refine ⟨rfl, ?_, ?_⟩ <;>
    cases h : (ExecE os cmd a (some (RW.buffer 1)) et).1 <;> simp [ExecO, h]

/-- Witness for the amended C3 at concrete inputs: a successful `ExecO` run
returns the captured bytes, a failing one returns nil bytes. -/
theorem C3_output_capture_witness :
    ((ExecO osOK cmdA none "hello" "").1 = some "hello" ∧
      (ExecO osOK cmdA none "hello" "").2 = none) ∧
    ((ExecO osWait0 cmdA none "hello" "").1 = none ∧
      (ExecO osWait0 cmdA none "hello" "").2 ≠ none) :=
  ⟨⟨(C3_output_capture osOK cmdA [] none "hello" "").2.1 (by decide), by decide⟩,
   ⟨(C3_output_capture osWait0 cmdA [] none "hello" "").2.2 (by decide), by decide⟩⟩

/-- Claim C7: every start or wait failure from the single-process and
pipeline executors produces an error whose text is exactly the failing
stage's path, a space, and the OS error text; every error-capturing
variant transforms a non-nil underlying error into text of the form
"(underlying error) - (captured error text)". -/
theorem C7_error_text_format (os : OS) (cmd : Cmd) (a b c : Option RW) (c0 : Cmd)
    (rest : List Cmd) (t : String) :
    (∀ e, os.startFail 0 = some e →
      (Exec os cmd a b c).res = some (cmd.path ++ " " ++ e)) ∧
    (∀ e, os.startFail 0 = none → os.waitFail 0 = some e →
      (Exec os cmd a b c).res = some (cmd.path ++ " " ++ e)) ∧
    (∀ k ck e, (∀ j, j + 1 < (c0 :: rest).length → os.pipeFail j = none) →
      (c0 :: rest).get? k = some ck → os.startFail k = some e →
      (∀ i, i < k → os.startFail i = none) →
      (ExecPipeline os (c0 :: rest) a b c).res = some (ck.path ++ " " ++ e)) ∧
    (∀ k ck e, (∀ j, j + 1 < (c0 :: rest).length → os.pipeFail j = none) →
      (∀ i, i < (c0 :: rest).length → os.startFail i = none) →
      (c0 :: rest).get? k = some ck → os.waitFail k = some e →
      (∀ i, i < k → os.waitFail i = none) →
      (ExecPipeline os (c0 :: rest) a b c).res = some (ck.path ++ " " ++ e)) ∧
    (∀ u, (Exec os cmd a b (some (RW.buffer 0))).res = some u →
      (ExecE os cmd a b t).1 = some (u ++ " - " ++ t)) ∧
    (∀ u, (ExecPipeline os (c0 :: rest) a b (some (RW.buffer 0))).res = some u →
      (ExecPipelineE os (c0 :: rest) a b t).1 = some (u ++ " - " ++ t)) := by
  refine ⟨?_, ?_, ?_, ?_, ?_, ?_⟩
  · intro e he
    cases a <;> simp [Exec, he]
  · intro e hs hwf
    cases a <;> simp [Exec, hs, hwf]
  · intro k ck e hw hk hf hpre
    exact pipeline_start_fail_res os a b c c0 rest k ck e hw hk hf hpre
  · intro k ck e hw hs hk hf hpre
    exact pipeline_wait_fail_res os a b c c0 rest k ck e hw hs hk hf hpre
  · intro u hu
    simp [ExecE, hu]
  · intro u hu
    simp [ExecPipelineE, hu]

/-- Witness for C7 at concrete inputs: a single-process start failure, a
single-process wait failure, a pipeline start failure at stage 1, a
pipeline wait failure at stage 0, and both error-capturing wrappers. -/
theorem C7_error_text_format_witness :
    (Exec osStart0 cmdA none none none).res =
        some ("a" ++ " " ++ "permission denied") ∧
    (Exec osWait0 cmdA none none none).res =
        some ("a" ++ " " ++ "exit status 1") ∧
    (ExecPipeline osStart1 [cmdA, cmdB] none none none).res =
        some ("b" ++ " " ++ "no such file or directory") ∧
    (ExecPipeline osWait0 [cmdA, cmdB] none none none).res =
        some ("a" ++ " " ++ "exit status 1") ∧
    (ExecE osWait0 cmdA none none "oops").1 =
        some (("a" ++ " " ++ "exit status 1") ++ " - " ++ "oops") ∧
    (ExecPipelineE osWait0 [cmdA, cmdB] none none "oops").1 =
        some (("a" ++ " " ++ "exit status 1") ++ " - " ++ "oops") :=
  ⟨(C7_error_text_format osStart0 cmdA none none none cmdA [] "").1
      "permission denied" (by decide),
   (C7_error_text_format osWait0 cmdA none none none cmdA [] "").2.1
      "exit status 1" (by decide) (by decide),
   (C7_error_text_format osStart1 cmdA none none none cmdA [cmdB] "").2.2.1
      1 cmdB "no such file or directory" (fun j hj => rfl) (by decide) (by decide)
      (fun i hi => by simp [osStart1, show i ≠ 1 by omega]),
   (C7_error_text_format osWait0 cmdA none none none cmdA [cmdB] "").2.2.2.1
      0 cmdA "exit status 1" (fun j hj => rfl) (fun i hi => rfl) (by decide)
      (by decide) (fun i hi => absurd hi (by omega)),
   (C7_error_text_format osWait0 cmdA none none none cmdA [] "oops").2.2.2.2.1
      ("a" ++ " " ++ "exit status 1") (by decide),
   (C7_error_text_format osWait0 cmdA none none none cmdA [cmdB] "oops").2.2.2.2.2
      ("a" ++ " " ++ "exit status 1") (by decide)⟩

/-- Claim C8: for every failing call to an error-capturing variant, the
returned error text contains the captured error-stream text (it is a
suffix appended after " - "), and when no error-stream bytes were
produced the appended captured content is empty — the error text is just
the underlying error followed by " - ". -/
theorem C8_captured_text (os : OS) (cmd : Cmd) (cmds : List Cmd) (a b : Option RW)
    (t : String) :
    (∀ m, (ExecE os cmd a b t).1 = some m →
      (∃ pre, m = pre ++ t) ∧ (t = "" → ∃ u, m = u ++ " - ")) ∧
    (∀ m, (ExecPipelineE os cmds a b t).1 = some m →
      (∃ pre, m = pre ++ t) ∧ (t = "" → ∃ u, m = u ++ " - ")) := by
  constructor
  · intro m hm
    simp only [ExecE, Option.map_eq_some'] at hm
    obtain ⟨u, hu, hmu⟩ := hm
    refine ⟨⟨u ++ " - ", ?_⟩, ?_⟩
    · rw [← hmu]
    · intro ht
      refine ⟨u, ?_⟩
      rw [← hmu, ht, String.append_empty]
  · intro m hm
    simp only [ExecPipelineE, Option.map_eq_some'] at hm
    obtain ⟨u, hu, hmu⟩ := hm
    refine ⟨⟨u ++ " - ", ?_⟩, ?_⟩
    · rw [← hmu]
    · intro ht
      refine ⟨u, ?_⟩
      rw [← hmu, ht, String.append_empty]

/-- Witness for C8 at concrete inputs: a failing `ExecE` run with captured
text "oops" yields an error text ending in "oops", and with empty
captured text yields the underlying error followed by " - ". -/
theorem C8_captured_text_witness :
    (∃ pre, ("a" ++ " " ++ "exit status 1") ++ " - " ++ "oops" = pre ++ "oops") ∧
    (∃ u, ("a" ++ " " ++ "exit status 1") ++ " - " ++ "" = u ++ " - ") :=
  ⟨((C8_captured_text osWait0 cmdA [cmdA, cmdB] none none "oops").1
      (("a" ++ " " ++ "exit status 1") ++ " - " ++ "oops") (by decide)).1,
   ((C8_captured_text osWait0 cmdA [cmdA, cmdB] none none "").1
      (("a" ++ " " ++ "exit status 1") ++ " - " ++ "") (by decide)).2 rfl⟩

/-- Claim C9: for every single descriptor and every choice of optional
input/output/error streams, running the pipeline executor on the
one-element sequence containing that descriptor performs the same stream
attachments (identical final descriptor state), the same start-then-wait
event sequence, and returns the same result as the single-process
executor on that descriptor, and creates no pipes. -/
theorem C9_singleton_pipeline_equiv (os : OS) (cmd : Cmd) (a b c : Option RW) :
    (ExecPipeline os [cmd] a b c).res = (Exec os cmd a b c).res ∧
    (ExecPipeline os [cmd] a b c).cmds = [(Exec os cmd a b c).cmd] ∧
    (ExecPipeline os [cmd] a b c).trace.filter isStartWait =
      (Exec os cmd a b c).trace.filter isStartWait ∧
    (∀ j, Event.mkPipe j ∉ (ExecPipeline os [cmd] a b c).trace) := by
  cases a <;> cases h1 : os.startFail 0 <;> cases h2 : os.waitFail 0 <;>
    simp [ExecPipeline, pipelineWired, attachStdin, wirePipes, setLast, startLoop,
      waitLoop, deferEvents, Exec, isStartWait, h1, h2, List.filter]

/-- Claim C10: when the caller passes a nil input source, both the
single-process executor and the pipeline executor leave the (first)
descriptor's input-stream field exactly as the caller set it; only the
output and error destinations are substituted with discard sinks when
omitted. -/
theorem C10_nil_stdin_frame (os : OS) (cmd c0 : Cmd) (rest : List Cmd) (b c : Option RW) :
    (Exec os cmd none b c).cmd.stdin = cmd.stdin ∧
    (Exec os cmd none none c).cmd.stdout = some RW.discard ∧
    (Exec os cmd none b none).cmd.stderr = some RW.discard ∧
    (((ExecPipeline os (c0 :: rest) none b c).cmds).head?).map Cmd.stdin =
      some c0.stdin ∧
    ((∀ j, j + 1 < (c0 :: rest).length → os.pipeFail j = none) →
      ((pipelineWired os none none none c0 rest).cmds.get?
          ((c0 :: rest).length - 1)).map Cmd.stdout = some (some RW.discard) ∧
      (∀ j, j < (c0 :: rest).length →
        ((pipelineWired os none none none c0 rest).cmds.get? j).map Cmd.stderr =
          some (some RW.discard))) := by
  refine ⟨?_, ?_, ?_, pipeline_head_stdin os b c c0 rest, fun h => ⟨?_, fun j hj => ?_⟩⟩
  · cases h1 : os.startFail 0 <;> cases h2 : os.waitFail 0 <;> simp [Exec, h1, h2]
  · cases h1 : os.startFail 0 <;> cases h2 : os.waitFail 0 <;> simp [Exec, h1, h2]
  · cases h1 : os.startFail 0 <;> cases h2 : os.waitFail 0 <;> simp [Exec, h1, h2]
  · exact pipelineWired_last_stdout os none none none c0 rest h
  · exact pipelineWired_stderr_all os none none none c0 rest h j hj

/-- Witness for C10 at concrete inputs: with a nil input, a caller-set
stdin on the first stage survives both executors, and omitted
output/error destinations become discard sinks. -/
theorem C10_nil_stdin_frame_witness :
    (Exec osOK { path := "a", stdin := some (RW.caller 7) } none none none).cmd.stdin =
        some (RW.caller 7) ∧
    (((ExecPipeline osOK ({ path := "a", stdin := some (RW.caller 7) } :: [cmdB])
        none none none).cmds).head?).map Cmd.stdin = some (some (RW.caller 7)) ∧
    ((pipelineWired osOK none none none { path := "a", stdin := some (RW.caller 7) }
        [cmdB]).cmds.get? 1).map Cmd.stdout = some (some RW.discard) ∧
    ((pipelineWired osOK none none none { path := "a", stdin := some (RW.caller 7) }
        [cmdB]).cmds.get? 0).map Cmd.stderr = some (some RW.discard) :=
  ⟨(C10_nil_stdin_frame osOK { path := "a", stdin := some (RW.caller 7) }
      { path := "a", stdin := some (RW.caller 7) } [cmdB] none none).1,
   (C10_nil_stdin_frame osOK { path := "a", stdin := some (RW.caller 7) }
      { path := "a", stdin := some (RW.caller 7) } [cmdB] none none).2.2.2.1,
   ((C10_nil_stdin_frame osOK { path := "a", stdin := some (RW.caller 7) }
      { path := "a", stdin := some (RW.caller 7) } [cmdB] none none).2.2.2.2
      (fun j hj => rfl)).1,
   ((C10_nil_stdin_frame osOK { path := "a", stdin := some (RW.caller 7) }
      { path := "a", stdin := some (RW.caller 7) } [cmdB] none none).2.2.2.2
      (fun j hj => rfl)).2 0 (by decide)⟩

/-- Counterexample to claim C2 as stated: in a two-stage pipeline on which
stage 0's wait fails, stage 1 was started but the wait loop never waits
for it (no wait event for stage 1 occurs) — instead stage 1 is killed.
Waiting does not continue for the remaining started descriptors. -/
theorem C2_wait_loop_cex :
    Event.startOK 1 ∈ (ExecPipeline osWait0 [cmdA, cmdB] none none none).trace ∧
    Event.waitOK 1 ∉ (ExecPipeline osWait0 [cmdA, cmdB] none none none).trace ∧
    Event.waitFailEv 1 ∉ (ExecPipeline osWait0 [cmdA, cmdB] none none none).trace ∧
    Event.sigKill 1 ∈ (ExecPipeline osWait0 [cmdA, cmdB] none none none).trace := by
  decide

/-- Claim C2 (amended): the pipeline executor waits for started descriptors
in descriptor order only up to the first wait failure, which is the one
surfaced to the caller, tagged with that descriptor's path; the executor
returns at that point and performs no further wait-loop waits — the
remaining started descriptors are instead killed and reaped by the
deferred cleanup, so every started process is reaped and no other
stage's outcome is surfaced. -/
theorem C2_first_wait_failure (os : OS) (a b c : Option RW) (c0 : Cmd) (rest : List Cmd)
    (k : Nat) (ck : Cmd) (e : String)
    (hw : ∀ j, j + 1 < (c0 :: rest).length → os.pipeFail j = none)
    (hs : ∀ i, i < (c0 :: rest).length → os.startFail i = none)
    (hk : (c0 :: rest).get? k = some ck)
    (hf : os.waitFail k = some e)
    (hpre : ∀ i, i < k → os.waitFail i = none) :
    (ExecPipeline os (c0 :: rest) a b c).res = some (ck.path ++ " " ++ e) ∧
    (∀ i, i < k → Event.waitOK i ∈ (ExecPipeline os (c0 :: rest) a b c).trace) ∧
    Event.waitFailEv k ∈ (ExecPipeline os (c0 :: rest) a b c).trace ∧
    (∀ i, k < i →
      Event.waitOK i ∉ (ExecPipeline os (c0 :: rest) a b c).trace ∧
      Event.waitFailEv i ∉ (ExecPipeline os (c0 :: rest) a b c).trace) ∧
    (∀ i, i < (c0 :: rest).length →
      Event.sigKill i ∈ (ExecPipeline os (c0 :: rest) a b c).trace ∧
      Event.reap i ∈ (ExecPipeline os (c0 :: rest) a b c).trace) := by
  obtain ⟨hkn, -⟩ := List.get?_eq_some.mp hk
  have hpw := pipelineWired_ok os a b c c0 rest hw
  have hlen := pipelineWired_length os a b c c0 rest hw
  have hSok := startLoop_ok os 0 (pipelineWired os a b c c0 rest).cmds
    (fun j hj => by
      rw [hlen] at hj
      simpa using hs j (by simp only [List.length_cons]; omega))
  have hserr : (startLoop os 0 (pipelineWired os a b c c0 rest).cmds).err = none := by
    rw [hSok]
  have hEx := ExecPipeline_started os c0 rest a b c hpw.1 hserr
  have hscmds : (startLoop os 0 (pipelineWired os a b c c0 rest).cmds).cmds =
      startedCmds 0 (pipelineWired os a b c c0 rest).cmds := by
    rw [hSok]
  have hkW : k < (startLoop os 0 (pipelineWired os a b c c0 rest).cmds).cmds.length := by
    rw [startLoop_cmds_length, hlen]
    simp only [List.length_cons] at hkn
    omega
  have hWL := waitLoop_fail os 0 k
    (startLoop os 0 (pipelineWired os a b c c0 rest).cmds).cmds e hkW
    (by simpa using hf) (fun j hj => by simpa using hpre j hj)
  have hpath :
      ((startLoop os 0 (pipelineWired os a b c c0 rest).cmds).cmds.get ⟨k, hkW⟩).path =
        ck.path := by
    have h1 : (((startLoop os 0 (pipelineWired os a b c c0 rest).cmds).cmds).get? k).map
        Cmd.path = ((c0 :: rest).get? k).map Cmd.path := by
      rw [hscmds, startedCmds_get?_path]
      exact pipelineWired_map_path os a b c c0 rest hw k
    rw [List.get?_eq_get hkW, hk] at h1
    simpa using h1
  have hwterr :
      (waitLoop os 0 (startLoop os 0 (pipelineWired os a b c c0 rest).cmds).cmds).err =
        some (ck.path ++ " " ++ e) := by
    rw [hWL, ← hpath]
  have hsome :
      (waitLoop os 0
        (startLoop os 0 (pipelineWired os a b c c0 rest).cmds).cmds).err.isSome = true := by
    rw [hwterr]
    rfl
  rw [hEx]
  refine ⟨hwterr, ?_, ?_, ?_, ?_⟩
  · intro i hi
    simp only [List.mem_append]
    right
    right
    left
    rw [hWL]
    simp only [List.mem_append, List.mem_map]
    exact Or.inl ⟨i, mem_idxs.mpr (by omega), rfl⟩
  · simp only [List.mem_append]
    right
    right
    left
    rw [hWL]
    simp
  · intro i hi
    constructor
    · intro hmem
      simp only [List.mem_append] at hmem
      rcases hmem with hm | hm | hm | hm
      · exact pw_no_waitOK os a b c c0 rest i hm
      · exact sl_no_waitOK os 0 _ i hm
      · rw [hWL] at hm
        simp only [List.mem_append, List.mem_map, List.mem_singleton] at hm
        rcases hm with ⟨j, hj, hje⟩ | hm
        · have hji : j = i := by injection hje
          subst hji
          have := mem_idxs.mp hj
          omega
        · simp at hm
      · exact de_no_waitOK _ _ i hm
    · intro hmem
      simp only [List.mem_append] at hmem
      rcases hmem with hm | hm | hm | hm
      · exact pw_no_waitFail os a b c c0 rest i hm
      · exact sl_no_waitFail os 0 _ i hm
      · rw [hWL] at hm
        simp only [List.mem_append, List.mem_map, List.mem_singleton] at hm
        rcases hm with ⟨j, hj, hje⟩ | hm
        · simp at hje
        · have : i = k := by simpa using hm
          omega
      · exact de_no_waitFail _ _ i hm
  · intro i hi
    have hstart_mem : Event.startOK i ∈
        (startLoop os 0 (pipelineWired os a b c c0 rest).cmds).tr := by
      rw [hSok]
      simp only [List.mem_map]
      refine ⟨i, mem_idxs.mpr ?_, rfl⟩
      rw [hlen]
      simp only [List.length_cons] at hi
      omega
    have hks := started_mem_kill os 0 (pipelineWired os a b c c0 rest).cmds i hstart_mem
    rw [hsome]
    simp only [List.mem_append]
    exact ⟨Or.inr (Or.inr (Or.inr hks.1)), Or.inr (Or.inr (Or.inr hks.2))⟩

/-- Witness for the amended C2 at a concrete input: in a two-stage pipeline
where stage 0's wait fails, the surfaced error is stage 0's, the wait
failure event for stage 0 occurs, stage 1 is never waited by the wait
loop, and both stages are killed and reaped. -/
theorem C2_first_wait_failure_witness :
    (ExecPipeline osWait0 [cmdA, cmdB] none none none).res =
        some ("a" ++ " " ++ "exit status 1") ∧
    Event.waitFailEv 0 ∈ (ExecPipeline osWait0 [cmdA, cmdB] none none none).trace ∧
    Event.waitOK 1 ∉ (ExecPipeline osWait0 [cmdA, cmdB] none none none).trace ∧
    Event.sigKill 1 ∈ (ExecPipeline osWait0 [cmdA, cmdB] none none none).trace ∧
    Event.reap 1 ∈ (ExecPipeline osWait0 [cmdA, cmdB] none none none).trace := by
  have h := C2_first_wait_failure osWait0 none none none cmdA [cmdB] 0 cmdA
    "exit status 1" (fun j hj => rfl) (fun i hi => rfl) (by decide) (by decide)
    (fun i hi => absurd hi (by omega))
  exact ⟨h.1, h.2.2.1, (h.2.2.2.1 1 (by omega)).1, (h.2.2.2.2 1 (by decide)).1,
    (h.2.2.2.2 1 (by decide)).2⟩

/-- Claim C1: for every run of the pipeline executor that returns a failure,
every stage that was started is forcibly terminated with an unconditional
kill signal (if still running) and reaped before the call returns —
including stages whose own exit had already succeeded — and no started
process handle outlives the call (every started stage is waited on or
reaped); on a fully successful run no stage is killed. -/
theorem C1_cleanup_on_failure (os : OS) (cmds : List Cmd) (a b c : Option RW) :
    ((ExecPipeline os cmds a b c).res ≠ none →
      ∀ i, Event.startOK i ∈ (ExecPipeline os cmds a b c).trace →
        Event.sigKill i ∈ (ExecPipeline os cmds a b c).trace ∧
          Event.reap i ∈ (ExecPipeline os cmds a b c).trace) ∧
    (∀ i, Event.startOK i ∈ (ExecPipeline os cmds a b c).trace →
      Event.waitOK i ∈ (ExecPipeline os cmds a b c).trace ∨
        Event.reap i ∈ (ExecPipeline os cmds a b c).trace) ∧
    ((ExecPipeline os cmds a b c).res = none →
      ∀ i, Event.sigKill i ∉ (ExecPipeline os cmds a b c).trace) :=
  ⟨fun hf i hi => pipeline_fail_kills os cmds a b c hf i hi,
   fun i hi => pipeline_started_reaped os cmds a b c i hi,
   fun hok i => pipeline_ok_no_kill os cmds a b c hok i⟩

/-- Witness for C1 at a concrete input: on a two-stage pipeline where only
stage 1's wait fails, the run fails and stage 0 — whose own wait had
succeeded — is still killed and reaped; on the all-success oracle no
stage is killed. -/
theorem C1_cleanup_on_failure_witness :
    ((ExecPipeline osWait1 [cmdA, cmdB] none none none).res ≠ none ∧
      Event.startOK 0 ∈ (ExecPipeline osWait1 [cmdA, cmdB] none none none).trace ∧
      Event.waitOK 0 ∈ (ExecPipeline osWait1 [cmdA, cmdB] none none none).trace ∧
      Event.sigKill 0 ∈ (ExecPipeline osWait1 [cmdA, cmdB] none none none).trace ∧
      Event.reap 0 ∈ (ExecPipeline osWait1 [cmdA, cmdB] none none none).trace) ∧
    ((ExecPipeline osOK [cmdA, cmdB] none none none).res = none ∧
      Event.sigKill 0 ∉ (ExecPipeline osOK [cmdA, cmdB] none none none).trace) :=
  ⟨⟨by decide, by decide, by decide,
    ((C1_cleanup_on_failure osWait1 [cmdA, cmdB] none none none).1 (by decide) 0
      (by decide)).1,
    ((C1_cleanup_on_failure osWait1 [cmdA, cmdB] none none none).1 (by decide) 0
      (by decide)).2⟩,
   ⟨by decide,
    (C1_cleanup_on_failure osOK [cmdA, cmdB] none none none).2.2 (by decide) 0⟩⟩

example : ExecPipeline ⟨fun _ => none, fun _ => none, fun _ => none⟩
    [{ path := "a" }, { path := "b" }] none none none =
  ⟨none,
   [{ path := "a", stdout := some (RW.pipeW 0), stderr := some RW.discard,
      process := some 0 },
    { path := "b", stdin := some (RW.pipeR 0), stdout := some RW.discard,
      stderr := some RW.discard, process := some 1 }],
   [Event.mkPipe 0, Event.startOK 0, Event.startOK 1, Event.waitOK 0, Event.waitOK 1]⟩ := by
  decide

end Pipes
